import Mathlib

/-!
Verification of the qspreadsheet filtering / row-index coordination subsystem.

This file gives a shallow embedding, translated from the Python sources
(`qspreadsheet/sort_filter_proxy.py`, `qspreadsheet/common.py`,
`qspreadsheet/_ndx.py`, `qspreadsheet/dataframe_model.py`,
`qspreadsheet/dataframe_view.py`), and proves or refutes the frozen claims
about that code.

Modelling conventions:
* A `pandas.Series` is modelled as an ordered association list
  `List (Nat × α)`: the label index paired with the values, in storage order.
  Positional access (`iloc`) is list position; label access (`loc`) is
  lookup of the first matching label.
* Objects whose label index is always the default `RangeIndex 0..n-1`
  (the data frame of the model and the `_Ndx` bookkeeping frame) are
  modelled as plain lists, positions doubling as labels.
* A Python operation that can raise (out-of-bounds `iloc`, etc.) is
  modelled as returning `Option`, `none` standing for the raised exception.
-/

namespace QSpreadsheet

/-- A pandas Series of values of type `α`: label/value pairs in storage order. -/
abbrev Series (α : Type) : Type := List (Nat × α)

/-- Label (`loc`) read access: first entry with the given label. -/
def seriesLoc (s : Series α) (label : Nat) : Option α :=
  match s.find? (fun p => p.1 = label) with
  | some p => some p.2
  | none => none

/-- Positional (`iloc`) read access. -/
def seriesIloc (s : Series α) (pos : Nat) : Option α :=
  (s.get? pos).map (·.2)

/-- The labels of a series, in storage order (`Series.index`). -/
def seriesIndex (s : Series α) : List Nat := s.map (·.1)

/-- The values of a series, in storage order. -/
def seriesValues (s : Series α) : List α := s.map (·.2)

/-- Embedding of `common.pandas_obj_insert_rows` for a labelled series.

In the source, `new_rows` always carries the label index
`range(at_index, at_index + count)`.  The function slices `obj` at position
`at_index`, shifts the labels of the lower slice up by the insertion count,
concatenates the three pieces, and finally re-assigns positions
`new_rows.index` by `iloc` (a value-level no-op that repairs null coercion
from the concatenation).  That final positional write raises `IndexError`
whenever `at_index` exceeds the length of `obj`, because then the positions
`at_index .. at_index+count-1` are not all inside the concatenated object;
this is modelled by returning `none`. -/
def pandas_obj_insert_rows (obj : Series α) (at_index : Nat)
    (new_rows : Series α) : Option (Series α) :=
  if at_index ≤ obj.length then
    some (obj.take at_index ++ new_rows ++
      (obj.drop at_index).map (fun p => (p.1 + new_rows.length, p.2)))
  else
    none

/-- Embedding of `common.pandas_obj_remove_rows` for a labelled series.

The source takes the labels found at positions `row .. row+count-1`
(raising `IndexError` when those positions are out of bounds, modelled as
`none`), drops every entry carrying one of those labels, and resets the
label index to `0..len-1`. -/
def pandas_obj_remove_rows (obj : Series α) (row count : Nat) :
    Option (Series α) :=
  if row + count ≤ obj.length then
    let dropped := (obj.drop row).take count |>.map (·.1)
    some (((obj.filter (fun p => decide (p.1 ∉ dropped))).map (·.2)).enum)
  else
    none

/-- State of `DataFrameSortFilterProxy`: the per-column mask cache (an
insertion-ordered dictionary, `DEFAULT_FILTER_INDEX = -1` holding the
all-true mask) and the composed `accepted` series. -/
structure ProxyState where
  filter_cache : List (Int × Series Bool)
  accepted : Series Bool
  deriving DecidableEq, Repr

/-- Embedding of `DataFrameSortFilterProxy.alltrues` for a source data frame
with `n` rows (default label index `0..n-1`). -/
def alltrues (n : Nat) : Series Bool := (List.range n).map (fun i => (i, true))

/-- Initial proxy state (`__init__`): the cache holds the all-true mask at
`DEFAULT_FILTER_INDEX`, and `accepted` is a copy of it. -/
def initProxy (n : Nat) : ProxyState :=
  { filter_cache := [(-1, alltrues n)], accepted := alltrues n }

/-- Embedding of `DataFrameSortFilterProxy._update_accepted`: set every
entry of `accepted` to `False`, then assign `accepted.loc[mask.index] = mask`.
An entry of `accepted` becomes the mask value at its label when the label is
in the mask index, and `False` otherwise.  (In the source a mask label that
is absent from the accepted index would raise; every mask produced by the
proxy carries a subset of the source row labels, so the assignment is total
on the accepted index.) -/
def update_accepted (mask : Series Bool) (accepted : Series Bool) :
    Series Bool :=
  accepted.map (fun p =>
    (p.1, match seriesLoc mask p.1 with
          | some b => b
          | none => false))

/-- Embedding of `DataFrameSortFilterProxy.add_filter_mask`: pop the entry
of the current filter column from the cache when present, re-insert the new
mask at the end (Python dictionaries preserve insertion order), and update
`accepted` from the new mask alone. -/
def add_filter_mask (column_index : Int) (mask : Series Bool)
    (st : ProxyState) : ProxyState :=
  { filter_cache :=
      st.filter_cache.filter (fun p => decide (p.1 ≠ column_index)) ++
        [(column_index, mask)],
    accepted := update_accepted mask st.accepted }

/-- Embedding of the `last_filter_index` / `filter_mask` pair: the mask most
recently inserted into the cache.  The source reads
`list(self.filter_cache.keys())[-1]`, which raises on an empty cache; the
cache is never empty (the default entry is installed at construction), and
the empty case is given the junk value of an empty mask. -/
def lastFilterMask (cache : List (Int × Series Bool)) : Series Bool :=
  match cache.getLast? with
  | some p => p.2
  | none => []

/-- Embedding of `DataFrameSortFilterProxy.remove_filter_mask`: pop the
column from the cache when present, then update `accepted` from the mask
that is now last in the cache. -/
def remove_filter_mask (column_index : Int) (st : ProxyState) : ProxyState :=
  let cache := st.filter_cache.filter (fun p => decide (p.1 ≠ column_index))
  { filter_cache := cache,
    accepted := update_accepted (lastFilterMask cache) st.accepted }

/-- Helper: map an `Option`-returning update over every cached mask,
failing when any single update fails. -/
def mapCacheM (f : Series Bool → Option (Series Bool))
    (cache : List (Int × Series Bool)) : Option (List (Int × Series Bool)) :=
  match cache with
  | [] => some []
  | (c, m) :: rest =>
    match f m, mapCacheM f rest with
    | some m2, some rest2 => some ((c, m2) :: rest2)
    | _, _ => none

/-- Embedding of `DataFrameSortFilterProxy.on_rows_inserted`: build the
all-true series labelled `first..last` and splice it into every cached mask
and into `accepted` with `pandas_obj_insert_rows`.  `none` models the
`IndexError` raised when some cached mask is shorter than the insertion
position. -/
def on_rows_inserted (st : ProxyState) (first last : Nat) :
    Option ProxyState :=
  let new_rows : Series Bool :=
    (List.range (last + 1 - first)).map (fun i => (first + i, true))
  match mapCacheM (fun m => pandas_obj_insert_rows m first new_rows)
      st.filter_cache,
    pandas_obj_insert_rows st.accepted first new_rows with
  | some cache, some acc => some { filter_cache := cache, accepted := acc }
  | _, _ => none

/-- Embedding of `DataFrameSortFilterProxy.on_rows_removed`: drop positions
`first..first+count-1` from every cached mask and from `accepted`. -/
def on_rows_removed (st : ProxyState) (first last : Nat) :
    Option ProxyState :=
  let count := last - first + 1
  match mapCacheM (fun m => pandas_obj_remove_rows m first count)
      st.filter_cache,
    pandas_obj_remove_rows st.accepted first count with
  | some cache, some acc => some { filter_cache := cache, accepted := acc }
  | _, _ => none

/-- Embedding of `DataFrameSortFilterProxy.filterAcceptsRow`: a source row
below the size of `accepted` is answered from the series by position, any
other row is accepted. -/
def filterAcceptsRow (st : ProxyState) (source_row : Nat) : Option Bool :=
  if source_row < st.accepted.length then
    seriesIloc st.accepted source_row
  else
    some true

/-- A cached mask accepts a row when the row label is in the mask index
with value `True`. -/
def maskAccepts (m : Series Bool) (row : Nat) : Bool :=
  match seriesLoc m row with
  | some b => b
  | none => false

/-- Row-wise conjunction of every cached mask. -/
def cacheAcceptsAll (cache : List (Int × Series Bool)) (row : Nat) : Bool :=
  cache.all (fun p => maskAccepts p.2 row)

/-- Python `str.lower` on a character list. -/
def lowerChars (s : List Char) : List Char := s.map Char.toLower

/-- Python `str.lower` on a string. -/
def lowerStr (s : String) : String := ⟨lowerChars s.data⟩

/-- One step of `re` pattern matching anchored at the head of the string,
for the fragment of the `re` pattern language built from literal
characters and the any-char metacharacter `.` only.
`pandas.Series.str.contains` interprets its argument as a regular
expression over the full `re` language; this embedding is faithful to it
exactly on that dot-only fragment, and every theorem below about the mask
built in `string_filter` is restricted by hypothesis to texts inside the
fragment (a text holding another metacharacter such as `*`, or one that
`re.compile` rejects, is outside it). -/
def regexMatchesAt : List Char → List Char → Bool
  | [], _ => true
  | _ :: _, [] => false
  | p :: ps, c :: cs => (p = '.' || p = c) && regexMatchesAt ps cs

/-- Embedding of `re.search` (as used by `Series.str.contains`): the pattern
matches starting at some position of the string. -/
def regexSearch (pat s : List Char) : Bool :=
  (s.tails).any (fun suffix => regexMatchesAt pat suffix)

/-- Case-insensitive literal substring containment: the reading of
"contains the given text case-insensitively" with the text taken literally. -/
def containsCI (text v : String) : Prop :=
  (lowerChars text.data) <:+: (lowerChars v.data)

instance (text v : String) : Decidable (containsCI text v) :=
  inferInstanceAs (Decidable ((lowerChars text.data) <:+: (lowerChars v.data)))

/-- Embedding of `DataFrameSortFilterProxy.string_filter`.  The series of
delegate-displayed texts (one per candidate row, computed in the source
from `get_model_values` and `delegate.display_data`) is taken as the
argument `display_values`.  For non-empty text the mask is
`display_values.str.lower().str.contains(text.lower())`, a
regular-expression search; the embedding evaluates it with the dot-only
`regexSearch` fragment above, so it agrees with the source only for texts
inside that fragment, and the theorems about it carry that restriction as
a hypothesis.  For empty text the mask is the all-true series over the
display-value index.  The mask is then installed with `add_filter_mask`. -/
def string_filter (st : ProxyState) (column_index : Int)
    (display_values : Series String) (text : String) : ProxyState :=
  let mask : Series Bool :=
    if text = "" then
      display_values.map (fun p => (p.1, true))
    else
      display_values.map (fun p =>
        (p.1, regexSearch (lowerStr text).data (lowerStr p.2).data))
  add_filter_mask column_index mask st

/-- The `INITIAL_FILTER_LIMIT` constant of `sort_filter_proxy.py`. -/
def INITIAL_FILTER_LIMIT : Nat := 5000

/-- The `FILTER_VALUES_STEP` constant of `sort_filter_proxy.py`. -/
def FILTER_VALUES_STEP : Nat := 5000

/-- Embedding of `values.str.lower().drop_duplicates().index` followed by
`values.loc[...]`: keep the first entry for every distinct lowered value. -/
def dropDuplicatesLower (seen : List String) : Series String → Series String
  | [] => []
  | p :: rest =>
    if lowerStr p.2 ∈ seen then dropDuplicatesLower seen rest
    else p :: dropDuplicatesLower (lowerStr p.2 :: seen) rest

/-- State built by `populate_list` / `refill_list`: the materialised display
values, the candidate filter values, the two flags, and the unconsumed rest
of the display-value generator. -/
structure PopState where
  display_values : Series String
  filter_values : Series String
  showing_all : Bool
  show_all_btn_visible : Bool
  gen_rest : Series String
  deriving DecidableEq, Repr

/-- The batching loop of `populate_list`.  In the source the loop variable
`next_step` starts at `INITIAL_FILTER_LIMIT` with `remaining` strictly above
it, and is reassigned `min(FILTER_VALUES_STEP, remaining)` after every pass;
since the two constants are equal, `next_step` equals
`min FILTER_VALUES_STEP remaining` at every test of the loop condition, and
the loop is phrased here with that value computed in place.  The loop runs
while `next_step` is non-zero and the candidate filter-value list is still
below `INITIAL_FILTER_LIMIT`; each pass consumes `next_step` generator
items, appends them to the display values, and appends their per-batch
deduplicated lowered values to the filter values. -/
def populateLoop (gen display filterv : Series String) (remaining : Nat) :
    Series String × Series String × Series String × Nat :=
  if h : min FILTER_VALUES_STEP remaining = 0 ∨
      INITIAL_FILTER_LIMIT ≤ filterv.length then
    (gen, display, filterv, remaining)
  else
    populateLoop (gen.drop (min FILTER_VALUES_STEP remaining))
      (display ++ gen.take (min FILTER_VALUES_STEP remaining))
      (filterv ++ dropDuplicatesLower []
        (gen.take (min FILTER_VALUES_STEP remaining)))
      (remaining - min FILTER_VALUES_STEP remaining)
termination_by remaining
decreasing_by
  push_neg at h
  have h1 : min FILTER_VALUES_STEP remaining ≠ 0 := h.1
  simp only [FILTER_VALUES_STEP] at h1 ⊢
  omega

/-- Embedding of `DataFrameSortFilterProxy.populate_list`, acting on the
sorted model-value series rendered through the delegate (the generator
`_display_values_gen`, taken here as the input list).  A column of at most
`INITIAL_FILTER_LIMIT` values is materialised in one pass with the
all-shown flag set; a larger column goes through the batching loop, and the
show-all button is made visible exactly when values remain unconsumed. -/
def populate_list (model_values : Series String) : PopState :=
  if model_values.length ≤ INITIAL_FILTER_LIMIT then
    { display_values := model_values,
      filter_values := dropDuplicatesLower [] model_values,
      showing_all := true,
      show_all_btn_visible := false,
      gen_rest := [] }
  else
    { display_values := (populateLoop model_values [] [] model_values.length).2.1,
      filter_values := (populateLoop model_values [] [] model_values.length).2.2.1,
      showing_all :=
        decide ((populateLoop model_values [] [] model_values.length).2.2.2 = 0),
      show_all_btn_visible :=
        decide ((populateLoop model_values [] [] model_values.length).2.2.2 ≠ 0),
      gen_rest := (populateLoop model_values [] [] model_values.length).1 }

/-- Embedding of `DataFrameSortFilterProxy.refill_list`: drain the
generator, append the drained values to the display values and their
deduplicated lowered values to the filter values, and set the all-shown
flag.  (Hiding the show-all button happens in a worker result callback,
outside this function.) -/
def refill_list (st : PopState) : PopState :=
  { display_values := st.display_values ++ st.gen_rest,
    filter_values := st.filter_values ++ dropDuplicatesLower [] st.gen_rest,
    showing_all := true,
    show_all_btn_visible := st.show_all_btn_visible,
    gen_rest := [] }

/-- One row of the `_Ndx` bookkeeping frame (`_make_index_data_for` gives
the default entry).  The two in-progress counters are set from column
counts but only ever decremented afterwards, so they live in `Int`. -/
structure RowInfo where
  in_progress : Bool := false
  disabled : Bool := false
  non_nullable : Bool := false
  non_nullable_in_progress_count : Int := 0
  disabled_in_progress_count : Int := 0
  deriving DecidableEq, Repr

/-- Embedding of `_Ndx`: the bookkeeping frame (whose label index is always
`0..size-1`, so a plain list suffices), the mutability flag and the virtual
row count. -/
structure Ndx where
  data : List RowInfo
  is_mutable : Bool
  count_virtual : Nat
  deriving DecidableEq, Repr

/-- Update the entries at the given positions of the bookkeeping frame
(`self._data.loc[index, column] = ...`; the label index equals the
positional index). -/
def updateAt (rows : List Nat) (f : RowInfo → RowInfo)
    (data : List RowInfo) : List RowInfo :=
  data.enum.map (fun p => if p.1 ∈ rows then f p.2 else p.2)

namespace Ndx

/-- Embedding of `_Ndx.count`: the row count property adds the virtual row
count to the size of the bookkeeping frame. -/
def count (n : Ndx) : Nat := n.data.length + n.count_virtual

/-- Embedding of `_Ndx.count_in_progress`. -/
def count_in_progress (n : Ndx) : Nat :=
  (n.data.filter (·.in_progress)).length

/-- Embedding of `_Ndx.count_committed`: size of the bookkeeping frame
minus the in-progress count minus the virtual count (a Python int, which
the source compares against differences, so modelled in `Int`). -/
def count_committed (n : Ndx) : Int :=
  (n.data.length : Int) - n.count_in_progress - n.count_virtual

/-- Embedding of `_Ndx.is_virtual`: a non-zero virtual count and a position
at or beyond the bookkeeping frame. -/
def is_virtual (n : Ndx) (index : Nat) : Bool :=
  n.count_virtual ≠ 0 && n.data.length ≤ index

/-- Embedding of `_Ndx._update_in_progress` at the given positions. -/
def update_in_progress (rows : List Nat) (n : Ndx) : Ndx :=
  let f : RowInfo -> RowInfo := fun x =>
    { x with in_progress :=
        decide (x.disabled_in_progress_count +
          x.non_nullable_in_progress_count > 0) }
  { n with data := updateAt rows f n.data }

/-- Embedding of `_Ndx.set_disabled_in_progress`. -/
def set_disabled_in_progress (rows : List Nat) (c : Int) (n : Ndx) : Ndx :=
  let f : RowInfo -> RowInfo :=
    fun x => { x with disabled_in_progress_count := c }
  update_in_progress rows { n with data := updateAt rows f n.data }

/-- Embedding of `_Ndx.set_non_nullable_in_progress`. -/
def set_non_nullable_in_progress (rows : List Nat) (c : Int) (n : Ndx) :
    Ndx :=
  let f : RowInfo -> RowInfo :=
    fun x => { x with non_nullable_in_progress_count := c }
  update_in_progress rows { n with data := updateAt rows f n.data }

/-- Embedding of `_Ndx.reduce_disabled_in_progress`. -/
def reduce_disabled_in_progress (row : Nat) (n : Ndx) : Ndx :=
  let f : RowInfo -> RowInfo :=
    fun x => { x with disabled_in_progress_count :=
      x.disabled_in_progress_count - 1 }
  update_in_progress [row] { n with data := updateAt [row] f n.data }

/-- Embedding of `_Ndx.reduce_non_nullable_in_progress`. -/
def reduce_non_nullable_in_progress (row : Nat) (n : Ndx) : Ndx :=
  let f : RowInfo -> RowInfo :=
    fun x => { x with non_nullable_in_progress_count :=
      x.non_nullable_in_progress_count - 1 }
  update_in_progress [row] { n with data := updateAt [row] f n.data }

/-- Embedding of `_Ndx.insert`: splice default entries into the
bookkeeping frame with `pandas_obj_insert_rows` (which raises, modelled as
`none`, when the insertion position is beyond the frame). -/
def insert (at_index count : Nat) (n : Ndx) : Option Ndx :=
  if at_index ≤ n.data.length then
    let data := n.data.take at_index ++
      List.replicate count ({} : RowInfo) ++ n.data.drop at_index
    some { n with data := data }
  else
    none

/-- Embedding of `_Ndx.remove`: drop `count` entries starting at position
`at_index` and renumber (`pandas_obj_remove_rows` plus `reset_index`). -/
def remove (at_index count : Nat) (n : Ndx) : Option Ndx :=
  if at_index + count ≤ n.data.length then
    let data := n.data.take at_index ++ n.data.drop (at_index + count)
    some { n with data := data }
  else
    none

end Ndx

/-- Cell values of the data frame: `none` models a pandas null value. -/
abbrev Cell : Type := Option Int

/-- State of `DataFrameModel`: the backing data frame `_df` (kept with the
default `RangeIndex`, so a plain list of rows) and the two `_Ndx`
bookkeeping objects.  The virtual row is never stored in `_df`. -/
structure ModelState where
  df : List (List Cell)
  row_ndx : Ndx
  col_ndx : Ndx
  deriving DecidableEq, Repr

namespace ModelState

/-- Embedding of `DataFrameModel.rowCount`. -/
def rowCount (st : ModelState) : Nat := st.row_ndx.count

/-- Embedding of `DataFrameModel.columnCount`. -/
def columnCount (st : ModelState) : Nat := st.col_ndx.count

/-- Number of disabled columns (`col_ndx.disabled_mask.sum()`). -/
def disabledColCount (st : ModelState) : Nat :=
  (st.col_ndx.data.filter (·.disabled)).length

/-- Number of non-nullable columns (`col_ndx.non_nullable_mask.sum()`). -/
def nonNullableColCount (st : ModelState) : Nat :=
  (st.col_ndx.data.filter (·.non_nullable)).length

/-- Embedding of `DataFrameModel.on_rowsInserted` (the `rowsInserted`
handler): insert default bookkeeping entries at `first..last`, then, when
disabled columns exist, give every inserted row the disabled-column count
as its disabled-in-progress counter, and likewise for non-nullable
columns. -/
def on_rowsInserted (st : ModelState) (first last : Nat) :
    Option ModelState := do
  let ndx ← st.row_ndx.insert first (last - first + 1)
  let rows_inserted := (List.range (last + 1 - first)).map (first + ·)
  let ndx :=
    if 0 < disabledColCount st then
      ndx.set_disabled_in_progress rows_inserted (disabledColCount st)
    else ndx
  let ndx :=
    if 0 < nonNullableColCount st then
      ndx.set_non_nullable_in_progress rows_inserted (nonNullableColCount st)
    else ndx
  pure { st with row_ndx := ndx }

/-- Embedding of `DataFrameModel.insertRows`: refuse (returning `False` and
leaving everything untouched) when the row index is immutable; otherwise
splice null rows into `_df` and run the `rowsInserted` handler.  The null
rows take the delegate null value for every column (`null_rows`), modelled
as the null cell. -/
def insertRows (st : ModelState) (row count : Nat) :
    Option (Bool × ModelState) :=
  if st.row_ndx.is_mutable = false then
    some (false, st)
  else do
    let df ← if row ≤ st.df.length then
        some (st.df.take row ++
          List.replicate count (List.replicate st.col_ndx.data.length
            (none : Cell)) ++ st.df.drop row)
      else none
    let st2 ← on_rowsInserted { st with df := df } row (row + count - 1)
    pure (true, st2)

/-- Embedding of `DataFrameModel.removeRows`: refuse when the row index is
immutable; otherwise drop the rows from `_df` and run the `rowsRemoved`
handler (`row_ndx.remove`). -/
def removeRows (st : ModelState) (row count : Nat) :
    Option (Bool × ModelState) :=
  if st.row_ndx.is_mutable = false then
    some (false, st)
  else do
    let df ← if row + count ≤ st.df.length then
        some (st.df.take row ++ st.df.drop (row + count))
      else none
    let ndx ← st.row_ndx.remove row count
    pure (true, { st with df := df, row_ndx := ndx })

/-- Write one cell of the data frame
(`self._df.iloc[index.row(), index.column()] = value`); out-of-bounds
positions raise, modelled as `none`. -/
def dfSet (df : List (List Cell)) (row col : Nat) (value : Cell) :
    Option (List (List Cell)) := do
  let r ← df.get? row
  if col < r.length then
    some (df.set row (r.set col value))
  else none

/-- Read one cell of the data frame. -/
def dfGet (df : List (List Cell)) (row col : Nat) : Option Cell := do
  let r ← df.get? row
  r.get? col

/-- Whether the bookkeeping row at a position is in progress
(`row_ndx.in_progress_mask.iloc[row]`). -/
def inProgressAt (n : Ndx) (row : Nat) : Bool :=
  match n.data.get? row with
  | some x => x.in_progress
  | none => false

/-- Whether the column at a position is disabled. -/
def disabledColAt (n : Ndx) (col : Nat) : Bool :=
  match n.data.get? col with
  | some x => x.disabled
  | none => false

/-- Whether the column at a position is non-nullable. -/
def nonNullableColAt (n : Ndx) (col : Nat) : Bool :=
  match n.data.get? col with
  | some x => x.non_nullable
  | none => false

/-- Embedding of `DataFrameModel.setData` for a valid index (the source
returns `False` on an invalid one before doing anything).  A virtual target
row first goes through `insertRow` — whose result the source ignores, so a
refused insertion still falls through to the cell write, which then raises.
After the write, an in-progress row has its disabled counter reduced when
the edited column is disabled, and its non-nullable counter reduced when
the edited column is non-nullable and the written value is not null. -/
def setData (st : ModelState) (row col : Nat) (value : Cell) :
    Option (Bool × ModelState) := do
  let st ← if st.row_ndx.is_virtual row then
      (insertRows st row 1).map (·.2)
    else pure st
  let df ← dfSet st.df row col value
  let st := { st with df := df }
  let st :=
    if inProgressAt st.row_ndx row then
      let st :=
        if disabledColAt st.col_ndx col then
          { st with row_ndx := st.row_ndx.reduce_disabled_in_progress row }
        else st
      if nonNullableColAt st.col_ndx col then
        match dfGet st.df row col with
        | some (some _) =>
          { st with row_ndx :=
              st.row_ndx.reduce_non_nullable_in_progress row }
        | _ => st
      else st
    else st
  pure (true, st)

end ModelState

/-- The two values of `Qt.SortOrder` used by `sort`. -/
inductive SortOrder where
  | ascendingOrder
  | descendingOrder
  deriving DecidableEq, Repr

/-- Comparison used by `sort_values(ascending=True)` on a column with
possible nulls: pandas places null values last (`na_position` defaults to
`last`). -/
def cellLeAsc : Cell → Cell → Bool
  | none, none => true
  | none, some _ => false
  | some _, none => true
  | some a, some b => decide (a ≤ b)

/-- Comparison used by `sort_values(ascending=False)`: descending on the
non-null values, nulls still last. -/
def cellLeDesc : Cell → Cell → Bool
  | none, none => true
  | none, some _ => false
  | some _, none => true
  | some a, some b => decide (b ≤ a)

namespace ModelState

/-- Sort key of a row: the cell in the sorted column. -/
def sortKey (col : Nat) (r : List Cell) : Cell := (r.get? col).getD none

/-- Row comparison for `sort_values(by=column_name, ascending=...)`. -/
def rowLe (ascending : Bool) (col : Nat) (a b : List Cell) : Bool :=
  if ascending then cellLeAsc (sortKey col a) (sortKey col b)
  else cellLeDesc (sortKey col a) (sortKey col b)

/-- Embedding of `DataFrameModel.sort`: `ascending` holds exactly for
`Qt.AscendingOrder`; the slice `_df.iloc[:row_ndx.count]` is sorted by the
column and the slice `_df.iloc[row_ndx.count:]` is re-appended unchanged.
(The virtual row is never stored in `_df`, and `row_ndx.count` is at least
the length of `_df`, so the first slice is in fact the whole frame.)
pandas `sort_values` uses an unspecified, possibly unstable sort; the
embedding uses merge sort, which meets the same specification: the result
is a permutation of the input ordered by the sort key.  The truthy
`ignore_index` argument resets the label index, which the plain-list model
keeps implicit. -/
def sort (st : ModelState) (col : Nat) (order : SortOrder) : ModelState :=
  let ascending := decide (order = SortOrder.ascendingOrder)
  let real_rows := st.df.take st.row_ndx.count
  let virtual_rows := st.df.drop st.row_ndx.count
  { st with df := real_rows.mergeSort (rowLe ascending col) ++ virtual_rows }

end ModelState

/-- Embedding of `DataFrameSortFilterProxy.sort`, which forwards to the
source model. -/
def proxySort (st : ModelState) (col : Nat) (order : SortOrder) :
    ModelState :=
  st.sort col order

/-- The ways `DataFrameView.remove_rows` can come back: an uncaught
exception, a plain `return` / fall-through (Python `None`), or an explicit
`return False`. -/
inductive RemoveRet where
  | raised
  | retNone
  | retFalse
  deriving DecidableEq, Repr

/-- Embedding of `_rows_from_index_list`: the sorted distinct selected row
numbers (the function raises on an empty selection, handled at the call
site in the embedding of `remove_rows`). -/
def rowsFromSelection (selected : List Nat) : List Nat :=
  (selected.dedup).mergeSort (fun a b => a ≤ b)

/-- The Boolean value of `DataFrameSortFilterProxy.filterAcceptsRow` (the
guard makes the positional access total): a source row below the size of
`accepted` is answered from the series by position, any other row is
accepted. -/
def acceptsRowB (pst : ProxyState) (source_row : Nat) : Bool :=
  if h : source_row < pst.accepted.length then
    (pst.accepted.get ⟨source_row, h⟩).2
  else
    true

/-- The source rows visible through the proxy, in proxy order: Qt maps the
proxy rows `0..` to the source rows (`0 .. sourceModel.rowCount() - 1`,
that is `0 .. row_ndx.count - 1`) accepted by `filterAcceptsRow`.  No
proxy sort is ever active: the proxy overrides `sort` to forward to the
source model, so its internal sort column stays unset and the mapping
keeps source order. -/
def proxyVisibleRows (pst : ProxyState) (st : ModelState) : List Nat :=
  (List.range st.row_ndx.count).filter (fun r => acceptsRowB pst r)

/-- One source-model block removal together with its `rowsRemoved` signal:
`DataFrameModel.removeRows` removes the block (or refuses on an immutable
row index, returning `False` without emitting), and on success the
connected proxy slot `on_rows_removed` drops the positions from every
cached mask and from `accepted`.  `Except.error` models an uncaught raise
in either step, carrying the states at the raise. -/
def sourceRemoveBlock (pst : ProxyState) (st : ModelState) (s L : Nat) :
    Except (ProxyState × ModelState) (Bool × ProxyState × ModelState) :=
  match st.removeRows s L with
  | none => Except.error (pst, st)
  | some p =>
    if p.1 then
      match on_rows_removed pst s (s + L - 1) with
      | none => Except.error (pst, p.2)
      | some pst2 => Except.ok (true, pst2, p.2)
    else Except.ok (false, pst, p.2)

/-- The run-removal loop of `QSortFilterProxyModel.removeRows` (Qt 5):
walk the mapped source rows from the highest down, extend each maximal
contiguous run downwards, remove it as one source block, and continue
with the next run; a removal that returns `False` short-circuits the
rest (the `ok = ok && removeRows(...)` of the Qt source).  `e` is the
upper end of the current run and `s` its lower end so far. -/
def removeRunsAux (pst : ProxyState) (st : ModelState) (e s : Nat) :
    List Nat →
      Except (ProxyState × ModelState) (Bool × ProxyState × ModelState)
  | [] => sourceRemoveBlock pst st s (e - s + 1)
  | r :: rest =>
    if r + 1 = s then removeRunsAux pst st e r rest
    else
      match sourceRemoveBlock pst st s (e - s + 1) with
      | Except.error x => Except.error x
      | Except.ok q =>
        if q.1 then removeRunsAux q.2.1 q.2.2 r r rest
        else Except.ok (false, q.2.1, q.2.2)

/-- Entry point of the run removal, on the mapped source rows in
descending order. -/
def removeRunsRev (pst : ProxyState) (st : ModelState) :
    List Nat →
      Except (ProxyState × ModelState) (Bool × ProxyState × ModelState)
  | [] => Except.ok (true, pst, st)
  | e :: rest => removeRunsAux pst st e e rest

/-- Embedding of `QSortFilterProxyModel.removeRows` (Qt 5) as invoked by
`DataFrameView.remove_rows` (invalid parent, proxy sort never active):
return `False` on a zero count or when the proxy range overruns the
visible rows; for a single row, or when no source row is filtered out
(the mapping is then the identity), remove the block at the mapped first
row through the source model; otherwise gather the mapped source rows of
the proxy range (already ascending, so the `std::sort` of the Qt source
is a no-op here) and remove their maximal contiguous runs in descending
order. -/
def proxyRemoveRows (pst : ProxyState) (st : ModelState) (row count : Nat) :
    Except (ProxyState × ModelState) (Bool × ProxyState × ModelState) :=
  if count = 0 then Except.ok (false, pst, st)
  else
    let visible := proxyVisibleRows pst st
    if visible.length < row + count then Except.ok (false, pst, st)
    else if count = 1 ∨ visible.length = st.row_ndx.count then
      sourceRemoveBlock pst st (visible.getD row 0) count
    else
      removeRunsRev pst st ((visible.drop row).take count).reverse

/-- The single-row loop of the non-consecutive branch of `remove_rows`:
`self.model().removeRows(row, 1)` for each selected proxy row in reverse
(descending) order — `self.model()` is the sort-filter proxy — with the
boolean results discarded and the proxy mask updates threaded along. -/
def viewRemoveLoop (pst : ProxyState) (st : ModelState) :
    List Nat → Except (ProxyState × ModelState) (ProxyState × ModelState)
  | [] => Except.ok (pst, st)
  | r :: rest =>
    match proxyRemoveRows pst st r 1 with
    | Except.error x => Except.error x
    | Except.ok q => viewRemoveLoop q.2.1 q.2.2 rest

/-- Embedding of `DataFrameView.remove_rows` on the selected proxy (view)
row numbers.  The steps of the source, in order: refuse on an immutable
row index (plain `return`); compute the sorted distinct selected proxy
rows and their consecutiveness (raising on an empty selection); keep the
proxy rows below the source row count `row_ndx.count`; return `False` on
an empty remainder; read `in_progress_mask.iloc` at the selected proxy
row numbers — the source mixes the coordinate systems here, since the
mask is in source order — raising when a proxy row number is outside the
mask; return `False`, after an error dialog, when removing that many
non-in-progress rows would leave no committed row; finally remove
through the proxy mapping (`self.model()` is the sort-filter proxy): the
whole proxy block at once when consecutive, else proxy row by proxy row
in reverse order.  The result carries the return kind, the final proxy
masks, and the final model state; a raise carries the states at the
raise. -/
def view_remove_rows (pst : ProxyState) (st : ModelState)
    (selected : List Nat) : RemoveRet × ProxyState × ModelState :=
  if st.row_ndx.is_mutable = false then
    (RemoveRet.retNone, pst, st)
  else
    match hr : rowsFromSelection selected with
    | [] => (RemoveRet.raised, pst, st)
    | r0 :: rest =>
      let allRows := r0 :: rest
      let consecutive :=
        decide (r0 + allRows.length - 1 = allRows.getLast (by simp))
      let rows := allRows.filter (fun r => decide (r < st.row_ndx.count))
      if rows.isEmpty then
        (RemoveRet.retFalse, pst, st)
      else if ¬ rows.all (fun r => decide (r < st.row_ndx.data.length)) then
        (RemoveRet.raised, pst, st)
      else
        let num_to_delete : Int :=
          (rows.length : Int) -
            (rows.countP (fun r => ModelState.inProgressAt st.row_ndx r) :
              Int)
        if st.row_ndx.count_committed - num_to_delete ≤ 0 then
          (RemoveRet.retFalse, pst, st)
        else if consecutive then
          match proxyRemoveRows pst st (rows.headD 0) rows.length with
          | Except.error x => (RemoveRet.raised, x.1, x.2)
          | Except.ok q => (RemoveRet.retNone, q.2.1, q.2.2)
        else
          match viewRemoveLoop pst st rows.reverse with
          | Except.error x => (RemoveRet.raised, x.1, x.2)
          | Except.ok q => (RemoveRet.retNone, q.1, q.2)

/-- The metacharacters of the `re` regular-expression language, which
`pandas.Series.str.contains` interprets in its pattern argument. -/
def regexMetachars : List Char :=
  ['.', '^', '$', '*', '+', '?', '\x7b', '\x7d', '[', ']', '\\', '|',
   '(', ')']

/-- Accessor for the disabled-in-progress counter of a bookkeeping row. -/
def disCountAt (n : Ndx) (row : Nat) : Option Int :=
  (n.data.get? row).map (·.disabled_in_progress_count)

/-- Accessor for the non-nullable-in-progress counter of a bookkeeping
row. -/
def nnCountAt (n : Ndx) (row : Nat) : Option Int :=
  (n.data.get? row).map (·.non_nullable_in_progress_count)

end QSpreadsheet

namespace QSpreadsheet

/-! ## Theorems -/

theorem seriesLoc_eq_find (s : Series α) (label : Nat) :
    seriesLoc s label =
      (s.find? (fun p => decide (p.1 = label))).map Prod.snd := by
  unfold seriesLoc
  cases s.find? (fun p => decide (p.1 = label)) <;> rfl

theorem seriesLoc_map (l : List (Nat × α)) (g : Nat × α → β) (row : Nat) :
    seriesLoc (l.map (fun p => (p.1, g p))) row =
      (l.find? (fun p => decide (p.1 = row))).map g := by
  induction l with
  | nil => rfl
  | cons p t ih =>
    rw [seriesLoc_eq_find] at ih ⊢
    by_cases h : p.1 = row
    · simp [List.find?, h]
    · simpa [List.find?, h] using ih

theorem update_accepted_loc (mask acc : Series Bool) (row : Nat) (b : Bool)
    (h : seriesLoc (update_accepted mask acc) row = some b) :
    b = maskAccepts mask row := by
  unfold update_accepted at h
  rw [seriesLoc_map] at h
  rcases hf : acc.find? (fun p => decide (p.1 = row)) with _ | p
  · rw [hf] at h; simp at h
  · rw [hf] at h
    have hp := List.find?_some hf
    simp only [decide_eq_true_eq] at hp
    simp only [Option.map_some', Option.some.injEq] at h
    subst hp
    unfold maskAccepts
    exact h.symm

/-- Claim C1, counterexample.  Starting from the initial proxy over two
rows, install a mask for column 0 rejecting row 1 (as `string_filter`
would build it over the full index), then install a full-index mask for
column 1 accepting both rows (as produced when the last-filtered column is
re-filtered, since `get_model_values` then skips the restriction to the
previous mask).  The resulting `accepted` series accepts row 1 even though
the cached mask of column 0 rejects it, so `accepted` is not the row-wise
conjunction of the cached masks. -/
theorem c1_counterexample :
    seriesLoc (add_filter_mask 1 [(0, true), (1, true)]
        (add_filter_mask 0 [(0, true), (1, false)]
          (initProxy 2))).accepted 1 = some true ∧
      cacheAcceptsAll (add_filter_mask 1 [(0, true), (1, true)]
        (add_filter_mask 0 [(0, true), (1, false)]
          (initProxy 2))).filter_cache 1 = false := by
  constructor <;> rfl

/-- Claim C1, amended: after `add_filter_mask` the `accepted` series
assigns every label of its index the value of the newly installed mask at
that label (`False` when the label is absent from the mask), and after
`remove_filter_mask` it likewise assigns the value of the mask that is now
last in the remaining cache; and `accepted` agrees with the row-wise
conjunction of all cached masks on its index exactly when every indexed
row accepted by the newly installed mask is accepted by every cached mask
(a condition which holds when successive filters each target a column
other than the last-filtered one, but fails when the last-filtered column
is re-filtered with a full-index mask). -/
theorem c1_amended (col colR : Int) (mask : Series Bool) (st : ProxyState) :
    (∀ row b,
        seriesLoc (add_filter_mask col mask st).accepted row = some b →
          b = maskAccepts mask row) ∧
      (∀ row b,
        seriesLoc (remove_filter_mask colR st).accepted row = some b →
          b = maskAccepts
            (lastFilterMask (remove_filter_mask colR st).filter_cache)
            row) ∧
      ((∀ row b,
          seriesLoc (add_filter_mask col mask st).accepted row = some b →
            b = cacheAcceptsAll (add_filter_mask col mask st).filter_cache
              row) ↔
        (∀ row b,
          seriesLoc (add_filter_mask col mask st).accepted row = some b →
            maskAccepts mask row = true →
            cacheAcceptsAll (add_filter_mask col mask st).filter_cache row
              = true)) := by
  refine ⟨?_, ?_, ?_⟩
  · intro row b h
    exact update_accepted_loc mask st.accepted row b h
  · intro row b h
    exact update_accepted_loc
      (lastFilterMask (remove_filter_mask colR st).filter_cache)
      st.accepted row b h
  · constructor
    · intro hco row b h hmb
      have hb := update_accepted_loc mask st.accepted row b h
      rw [← hco row b h, hb, hmb]
    · intro hnest row b h
      have hb := update_accepted_loc mask st.accepted row b h
      rcases hmb : maskAccepts mask row with _ | _
      · have hmem : (col, mask) ∈ (add_filter_mask col mask st).filter_cache := by
          unfold add_filter_mask
          simp
        rcases hall : cacheAcceptsAll (add_filter_mask col mask st).filter_cache
            row with _ | _
        · rw [hb, hmb]
        · exfalso
          unfold cacheAcceptsAll at hall
          rw [List.all_eq_true] at hall
          have := hall (col, mask) hmem
          simp only at this
          rw [hmb] at this
          exact Bool.false_ne_true this
      · rw [hb, hmb, hnest row b h hmb]

/-- Claim C1, witness for the amended theorem. -/
theorem c1_amended_witness : true = maskAccepts [(0, true)] 0 :=
  (c1_amended 0 0 [(0, true)] (initProxy 1)).1 0 true (by decide)

/-- Claim C9: on an immutable row index, `insertRows` and `removeRows`
both return `False` and leave the model state (the data frame and both
bookkeeping indexes) unchanged. -/
theorem c9_immutable_refusal (st : ModelState) (row count : Nat)
    (h : st.row_ndx.is_mutable = false) :
    st.insertRows row count = some (false, st) ∧
      st.removeRows row count = some (false, st) := by
  unfold ModelState.insertRows ModelState.removeRows
  rw [h]
  exact ⟨rfl, rfl⟩

/-- Claim C9, witness. -/
theorem c9_immutable_refusal_witness :
    ModelState.insertRows { df := [[some 1]], row_ndx := { data := [{}], is_mutable := false, count_virtual := 1 }, col_ndx := { data := [{}], is_mutable := true, count_virtual := 0 } } 0 1 =
      some (false, { df := [[some 1]], row_ndx := { data := [{}], is_mutable := false, count_virtual := 1 }, col_ndx := { data := [{}], is_mutable := true, count_virtual := 0 } }) :=
  (c9_immutable_refusal _ 0 1 (by rfl)).1

/-- Claim C10: `filterAcceptsRow` is total on all source rows — below the
size of `accepted` it returns the boolean stored at that position, at or
beyond it (the virtual row) it returns `True`, never an out-of-bounds
failure. -/
theorem c10_filterAcceptsRow_total (st : ProxyState) (source_row : Nat) :
    filterAcceptsRow st source_row =
      some (if h : source_row < st.accepted.length
            then (st.accepted.get ⟨source_row, h⟩).2
            else true) := by
  unfold filterAcceptsRow seriesIloc
  by_cases h : source_row < st.accepted.length
  · rw [if_pos h, dif_pos h, List.get?_eq_get h]
    rfl
  · rw [if_neg h, dif_neg h]

theorem regexMatchesAt_literal (pat : List Char) (hdot : '.' ∉ pat)
    (s : List Char) : regexMatchesAt pat s = true ↔ pat <+: s := by
  induction pat generalizing s with
  | nil => simp [regexMatchesAt]
  | cons p ps ih =>
    have hp : p ≠ '.' := fun hh => hdot (hh ▸ List.mem_cons_self p ps)
    have hps : '.' ∉ ps := fun hh => hdot (List.mem_cons_of_mem p hh)
    cases s with
    | nil => simp [regexMatchesAt]
    | cons c cs =>
      simp only [regexMatchesAt, Bool.and_eq_true, Bool.or_eq_true,
        decide_eq_true_eq, List.cons_prefix_cons, ih hps]
      constructor
      · rintro ⟨hpc | hpc, hm⟩
        · exact absurd hpc hp
        · exact ⟨hpc, hm⟩
      · rintro ⟨hpc, hm⟩
        exact ⟨Or.inr hpc, hm⟩

theorem regexSearch_literal (pat s : List Char) (hdot : '.' ∉ pat) :
    regexSearch pat s = true ↔ pat <:+: s := by
  unfold regexSearch
  rw [List.any_eq_true]
  constructor
  · rintro ⟨t, ht, hm⟩
    rw [regexMatchesAt_literal pat hdot t] at hm
    obtain ⟨r, hr⟩ := hm
    obtain ⟨l, hl⟩ := (List.mem_tails t s).1 ht
    refine ⟨l, r, ?_⟩
    rw [List.append_assoc, hr, hl]
  · rintro ⟨l, r, hlr⟩
    refine ⟨pat ++ r, (List.mem_tails _ s).2 ⟨l, ?_⟩, ?_⟩
    · rw [← List.append_assoc]
      exact hlr
    · rw [regexMatchesAt_literal pat hdot]
      exact ⟨r, rfl⟩

theorem maskAccepts_map (display : Series String) (g : Nat × String → Bool)
    (row : Nat) (q : Nat × String)
    (hf : display.find? (fun p => decide (p.1 = row)) = some q) :
    maskAccepts (display.map (fun p => (p.1, g p))) row = g q := by
  unfold maskAccepts
  rw [seriesLoc_map, hf, Option.map_some']

theorem lastFilterMask_add (col : Int) (mask : Series Bool)
    (st : ProxyState) :
    lastFilterMask (add_filter_mask col mask st).filter_cache = mask := by
  unfold lastFilterMask add_filter_mask
  rw [List.getLast?_concat]

/-- Claim C7, counterexample.  `Series.str.contains` interprets the filter
text as a regular expression: for the text consisting of the single
metacharacter dot, the installed mask accepts the row displaying `ab`
although `ab` does not contain the dot as literal text case-insensitively,
so the mask does not accept exactly the rows whose displayed text contains
the given text. -/
theorem c7_counterexample :
    maskAccepts (lastFilterMask
        (string_filter (initProxy 1) 0 [(0, "ab")] ".").filter_cache) 0
      = true ∧ ¬ containsCI "." "ab" := by
  constructor
  · rfl
  · intro h
    rcases h with ⟨l, r, hlr⟩
    have : '.' ∈ lowerChars ("ab".data) := by
      rw [← hlr]
      simp [lowerChars]
    revert this
    decide

/-- Claim C7, amended: `pandas.Series.str.contains` interprets the filter
text as a regular expression, and the embedding models the fragment of the
`re` pattern language built from literal characters and the any-char dot
(texts holding any other metacharacter, or raising `re.error`, lie outside
the embedded fragment and are not settled here).  For a non-empty filter
text inside that fragment, `string_filter` produces and installs (as the
most recent cache entry) a mask that accepts exactly the rows whose
delegate-displayed text matches the lowered filter text as a
regular-expression search pattern; when the (lowered) text contains no
regular-expression metacharacter at all this is exactly case-insensitive
literal substring containment; and for the empty text the installed mask
accepts every row of the current display-value set. -/
theorem c7_amended (st : ProxyState) (col : Int)
    (display_values : Series String) (text : String) :
    (text = "" → ∀ row v, seriesLoc display_values row = some v →
        maskAccepts (lastFilterMask
          (string_filter st col display_values text).filter_cache) row
          = true) ∧
      (text ≠ "" →
        (∀ c ∈ (lowerStr text).data, c ∉ regexMetachars ∨ c = '.') →
        ∀ row v, seriesLoc display_values row = some v →
        maskAccepts (lastFilterMask
            (string_filter st col display_values text).filter_cache) row
          = regexSearch (lowerStr text).data (lowerStr v).data ∧
        ((∀ c ∈ (lowerStr text).data, c ∉ regexMetachars) →
          (maskAccepts (lastFilterMask
              (string_filter st col display_values text).filter_cache) row
            = true ↔ containsCI text v))) := by
  constructor
  · intro htext row v hloc
    rw [seriesLoc_eq_find] at hloc
    rcases hf : display_values.find? (fun p => decide (p.1 = row)) with _ | q
    · rw [hf] at hloc; exact absurd hloc (by simp)
    · unfold string_filter
      rw [if_pos htext, lastFilterMask_add]
      exact maskAccepts_map display_values (fun _ => true) row q hf
  · intro htext _hfrag row v hloc
    rw [seriesLoc_eq_find] at hloc
    rcases hf : display_values.find? (fun p => decide (p.1 = row)) with _ | q
    · rw [hf] at hloc; exact absurd hloc (by simp)
    · rw [hf, Option.map_some', Option.some.injEq] at hloc
      subst hloc
      unfold string_filter
      rw [if_neg htext, lastFilterMask_add]
      have hacc := maskAccepts_map display_values
        (fun p => regexSearch (lowerStr text).data (lowerStr p.2).data)
        row q hf
      refine ⟨hacc, ?_⟩
      intro hmeta
      rw [hacc]
      have hdot : '.' ∉ (lowerStr text).data := fun hin =>
        hmeta '.' hin (by decide)
      exact regexSearch_literal (lowerStr text).data (lowerStr q.2).data hdot

theorem populateLoop_spec (remaining : Nat) :
    ∀ (gen display filterv : Series String), remaining = gen.length →
      (populateLoop gen display filterv remaining).2.1 ++
          (populateLoop gen display filterv remaining).1 = display ++ gen ∧
        (populateLoop gen display filterv remaining).2.2.2 =
          (populateLoop gen display filterv remaining).1.length ∧
        ((populateLoop gen display filterv remaining).2.2.2 = 0 ∨
          INITIAL_FILTER_LIMIT ≤
            (populateLoop gen display filterv remaining).2.2.1.length) := by
  induction remaining using Nat.strong_induction_on with
  | _ remaining ih =>
    intro gen display filterv hrem
    rw [populateLoop]
    split
    case isTrue h =>
      refine ⟨rfl, hrem, ?_⟩
      rcases h with h0 | hge
      · left
        show remaining = 0
        simp only [FILTER_VALUES_STEP] at h0
        omega
      · right
        exact hge
    case isFalse h =>
      push_neg at h
      have hne : min FILTER_VALUES_STEP remaining ≠ 0 := h.1
      have hlt : remaining - min FILTER_VALUES_STEP remaining < remaining := by
        simp only [FILTER_VALUES_STEP] at hne ⊢
        omega
      have hlen : remaining - min FILTER_VALUES_STEP remaining =
          (gen.drop (min FILTER_VALUES_STEP remaining)).length := by
        rw [List.length_drop, hrem]
      obtain ⟨e1, e2, e3⟩ := ih _ hlt
        (gen.drop (min FILTER_VALUES_STEP remaining))
        (display ++ gen.take (min FILTER_VALUES_STEP remaining))
        (filterv ++ dropDuplicatesLower []
          (gen.take (min FILTER_VALUES_STEP remaining)))
        hlen
      refine ⟨?_, e2, e3⟩
      rw [e1, List.append_assoc, List.take_append_drop]

/-- Claim C3: for a column of at most `INITIAL_FILTER_LIMIT` (5000) values,
`populate_list` materialises every display value in one pass with the
all-shown flag set; for a larger column the batching loop consumes a prefix
of the values until the candidate filter-value list holds at least 5000
entries or the values are exhausted, the show-all button becomes visible
with the all-shown flag cleared exactly when values remain unconsumed, and
a later `refill_list` then appends every remaining value and sets the
all-shown flag. -/
theorem c3_populate_refill (vals : Series String) :
    (vals.length ≤ INITIAL_FILTER_LIMIT →
        (populate_list vals).display_values = vals ∧
          (populate_list vals).showing_all = true ∧
          (populate_list vals).gen_rest = []) ∧
      (INITIAL_FILTER_LIMIT < vals.length →
        (populate_list vals).display_values ++
            (populate_list vals).gen_rest = vals ∧
          ((populate_list vals).gen_rest = [] ∨
            INITIAL_FILTER_LIMIT ≤ (populate_list vals).filter_values.length) ∧
          ((populate_list vals).gen_rest ≠ [] →
            (populate_list vals).show_all_btn_visible = true ∧
              (populate_list vals).showing_all = false ∧
              (refill_list (populate_list vals)).display_values = vals ∧
              (refill_list (populate_list vals)).showing_all = true) ∧
          ((populate_list vals).gen_rest = [] →
            (populate_list vals).showing_all = true ∧
              (populate_list vals).show_all_btn_visible = false)) := by
  constructor
  · intro hle
    unfold populate_list
    rw [if_pos hle]
    exact ⟨rfl, rfl, rfl⟩
  · intro hgt
    unfold populate_list
    rw [if_neg (not_le.2 hgt)]
    dsimp only
    obtain ⟨e1, e2, e3⟩ := populateLoop_spec vals.length vals [] [] rfl
    simp only [List.nil_append] at e1
    refine ⟨e1, ?_, ?_, ?_⟩
    · rcases e3 with h0 | hge
      · left
        rw [h0] at e2
        exact (List.length_eq_zero.1 e2.symm)
      · right
        exact hge
    · intro hne
      have hlen0 : (populateLoop vals [] [] vals.length).1.length ≠ 0 := by
        intro hz
        exact hne (List.length_eq_zero.1 hz)
      refine ⟨?_, ?_, ?_, rfl⟩
      · simp only [decide_eq_true_eq]
        rw [e2]
        exact hlen0
      · simp only [decide_eq_false_iff_not]
        rw [e2]
        exact hlen0
      · unfold refill_list
        exact e1
    · intro hnil
      have hz : (populateLoop vals [] [] vals.length).2.2.2 = 0 := by
        rw [e2, hnil]
        rfl
      constructor
      · simp only [hz]
        rfl
      · simp only [hz]
        rfl

theorem updateAt_get? (rows : List Nat) (f : RowInfo → RowInfo)
    (data : List RowInfo) (i : Nat) :
    (updateAt rows f data).get? i =
      if i ∈ rows then (data.get? i).map f else data.get? i := by
  unfold updateAt
  rw [List.get?_map, List.get?_enum]
  rcases data.get? i with _ | x
  · simp
  · simp only [Option.map_some']
    by_cases h : i ∈ rows
    · simp [h]
    · simp [h]

theorem updateAt_length (rows : List Nat) (f : RowInfo → RowInfo)
    (data : List RowInfo) : (updateAt rows f data).length = data.length := by
  unfold updateAt
  rw [List.length_map, List.enum_length]

theorem splice_get?_lt (l mid : List α) (row i : Nat) (hi : i < row)
    (hrow : row ≤ l.length) :
    (l.take row ++ mid ++ l.drop row).get? i = l.get? i := by
  have htl : (l.take row).length = row := by
    rw [List.length_take, Nat.min_eq_left hrow]
  rw [List.append_assoc, List.get?_append (by rw [htl]; exact hi),
    List.get?_take hi]

theorem splice_get?_mid (l mid : List α) (row i : Nat) (hi : i < mid.length)
    (hrow : row ≤ l.length) :
    (l.take row ++ mid ++ l.drop row).get? (row + i) = mid.get? i := by
  have htl : (l.take row).length = row := by
    rw [List.length_take, Nat.min_eq_left hrow]
  rw [List.append_assoc, List.get?_append_right (by rw [htl]; omega), htl,
    Nat.add_sub_cancel_left, List.get?_append hi]

theorem splice_get?_ge (l mid : List α) (row i : Nat) (hrow : row ≤ l.length) :
    (l.take row ++ mid ++ l.drop row).get? (row + mid.length + i) =
      l.get? (row + i) := by
  have htl : (l.take row).length = row := by
    rw [List.length_take, Nat.min_eq_left hrow]
  rw [List.append_assoc, List.get?_append_right (by rw [htl]; omega), htl]
  have h1 : row + mid.length + i - row = mid.length + i := by omega
  rw [h1, List.get?_append_right (by omega)]
  have h2 : mid.length + i - mid.length = i := by omega
  rw [h2, List.get?_drop]

theorem splice_length (l mid : List α) (row : Nat) (hrow : row ≤ l.length) :
    (l.take row ++ mid ++ l.drop row).length = l.length + mid.length := by
  simp only [List.length_append, List.length_take, List.length_drop]
  omega

theorem mem_shiftRange (row count i : Nat) :
    (row + i) ∈ (List.range count).map (row + ·) ↔ i < count := by
  simp only [List.mem_map, List.mem_range]
  constructor
  · rintro ⟨j, hj, hji⟩
    omega
  · intro h
    exact ⟨i, h, rfl⟩

theorem not_mem_shiftRange (row count i : Nat)
    (h : i < row ∨ row + count ≤ i) :
    i ∉ (List.range count).map (row + ·) := by
  simp only [List.mem_map, List.mem_range]
  rintro ⟨j, hj, hji⟩
  omega

theorem set_disabled_get? (rows : List Nat) (c : Int) (nx : Ndx) (i : Nat) :
    (Ndx.set_disabled_in_progress rows c nx).data.get? i =
      if i ∈ rows then
        (nx.data.get? i).map (fun x =>
          { x with disabled_in_progress_count := c, in_progress := decide (c + x.non_nullable_in_progress_count > 0) })
      else nx.data.get? i := by
  unfold Ndx.set_disabled_in_progress Ndx.update_in_progress
  dsimp only
  rw [updateAt_get?, updateAt_get?]
  by_cases h : i ∈ rows
  · rw [if_pos h, if_pos h, if_pos h, Option.map_map]
    rfl
  · rw [if_neg h, if_neg h, if_neg h]

theorem set_non_nullable_get? (rows : List Nat) (c : Int) (nx : Ndx)
    (i : Nat) :
    (Ndx.set_non_nullable_in_progress rows c nx).data.get? i =
      if i ∈ rows then
        (nx.data.get? i).map (fun x =>
          { x with non_nullable_in_progress_count := c, in_progress := decide (x.disabled_in_progress_count + c > 0) })
      else nx.data.get? i := by
  unfold Ndx.set_non_nullable_in_progress Ndx.update_in_progress
  dsimp only
  rw [updateAt_get?, updateAt_get?]
  by_cases h : i ∈ rows
  · rw [if_pos h, if_pos h, if_pos h, Option.map_map]
    rfl
  · rw [if_neg h, if_neg h, if_neg h]

theorem set_disabled_length (rows : List Nat) (c : Int) (nx : Ndx) :
    (Ndx.set_disabled_in_progress rows c nx).data.length =
      nx.data.length := by
  unfold Ndx.set_disabled_in_progress Ndx.update_in_progress
  dsimp only
  rw [updateAt_length, updateAt_length]

theorem set_non_nullable_length (rows : List Nat) (c : Int) (nx : Ndx) :
    (Ndx.set_non_nullable_in_progress rows c nx).data.length =
      nx.data.length := by
  unfold Ndx.set_non_nullable_in_progress Ndx.update_in_progress
  dsimp only
  rw [updateAt_length, updateAt_length]

theorem disabledColCount_mk (df : List (List Cell)) (rn cn : Ndx) :
    ModelState.disabledColCount { df := df, row_ndx := rn, col_ndx := cn } =
      (cn.data.filter (fun x => x.disabled)).length := rfl

theorem nonNullableColCount_mk (df : List (List Cell)) (rn cn : Ndx) :
    ModelState.nonNullableColCount { df := df, row_ndx := rn, col_ndx := cn } =
      (cn.data.filter (fun x => x.non_nullable)).length := rfl

theorem rowinfo_comp_eq (d n : Nat) (b : Bool)
    (hb : b = decide (0 < d ∨ 0 < n)) (dI nI : Int) (hdI : dI = d)
    (hnI : nI = n) :
    ({ in_progress := b, disabled := false, non_nullable := false, non_nullable_in_progress_count := nI, disabled_in_progress_count := dI } : RowInfo) =
      { in_progress := decide (0 < d ∨ 0 < n), disabled := false, non_nullable := false, non_nullable_in_progress_count := (n : Int), disabled_in_progress_count := (d : Int) } := by
  rw [hb, hdI, hnI]

theorem insert_marks_spec (dta : List RowInfo) (mu : Bool) (virt : Nat)
    (row count d n : Nat) (hrow : row ≤ dta.length) :
    (fun nx3 : Ndx =>
      nx3.data.length = dta.length + count ∧
      (∀ i, i < count → nx3.data.get? (row + i) =
        some { in_progress := decide (0 < d ∨ 0 < n), disabled := false, non_nullable := false, non_nullable_in_progress_count := (n : Int), disabled_in_progress_count := (d : Int) }) ∧
      (∀ i, i < row → nx3.data.get? i = dta.get? i) ∧
      (∀ i, nx3.data.get? (row + count + i) = dta.get? (row + i)))
    (if 0 < n then
        Ndx.set_non_nullable_in_progress ((List.range count).map (row + ·))
          (n : Int)
          (if 0 < d then
            Ndx.set_disabled_in_progress ((List.range count).map (row + ·))
              (d : Int)
              { data := dta.take row ++ List.replicate count {} ++ dta.drop row, is_mutable := mu, count_virtual := virt }
          else
            { data := dta.take row ++ List.replicate count {} ++ dta.drop row, is_mutable := mu, count_virtual := virt })
      else
        (if 0 < d then
          Ndx.set_disabled_in_progress ((List.range count).map (row + ·))
            (d : Int)
            { data := dta.take row ++ List.replicate count {} ++ dta.drop row, is_mutable := mu, count_virtual := virt }
        else
          { data := dta.take row ++ List.replicate count {} ++ dta.drop row, is_mutable := mu, count_virtual := virt })) := by
  have hbase : ∀ i, i < count →
      (dta.take row ++ List.replicate count ({} : RowInfo) ++ dta.drop row).get? (row + i) = some ({} : RowInfo) := by
    intro i hi
    have hs := splice_get?_mid dta (List.replicate count ({} : RowInfo)) row i
      (by rw [List.length_replicate]; exact hi) hrow
    rw [hs, List.get?_eq_getElem?, List.getElem?_replicate, if_pos hi]
  have hsplen : (dta.take row ++ List.replicate count ({} : RowInfo) ++ dta.drop row).length = dta.length + count := by
    have := splice_length dta (List.replicate count ({} : RowInfo)) row hrow
    rw [List.length_replicate] at this
    exact this
  dsimp only
  split_ifs with hn hd hd
  · refine ⟨?_, ?_, ?_, ?_⟩
    · rw [set_non_nullable_length, set_disabled_length]
      exact hsplen
    · intro i hi
      have hm := (mem_shiftRange row count i).2 hi
      rw [set_non_nullable_get?, if_pos hm, set_disabled_get?, if_pos hm]
      dsimp only
      rw [hbase i hi]
      simp only [Option.map_some']
      exact congrArg some (rowinfo_comp_eq d n _
        (by rw [decide_eq_decide]; omega) _ _ rfl rfl)
    · intro i hi
      have hm := not_mem_shiftRange row count i (Or.inl hi)
      rw [set_non_nullable_get?, if_neg hm, set_disabled_get?, if_neg hm]
      dsimp only
      exact splice_get?_lt dta _ row i hi hrow
    · intro i
      have hm := not_mem_shiftRange row count (row + count + i)
        (Or.inr (by omega))
      rw [set_non_nullable_get?, if_neg hm, set_disabled_get?, if_neg hm]
      dsimp only
      have hs := splice_get?_ge dta (List.replicate count ({} : RowInfo))
        row i hrow
      rw [List.length_replicate] at hs
      exact hs
  · refine ⟨?_, ?_, ?_, ?_⟩
    · rw [set_non_nullable_length]
      exact hsplen
    · intro i hi
      have hm := (mem_shiftRange row count i).2 hi
      rw [set_non_nullable_get?, if_pos hm]
      dsimp only
      rw [hbase i hi]
      simp only [Option.map_some']
      exact congrArg some (rowinfo_comp_eq d n _
        (by rw [decide_eq_decide]; omega) _ _ (by omega) rfl)
    · intro i hi
      have hm := not_mem_shiftRange row count i (Or.inl hi)
      rw [set_non_nullable_get?, if_neg hm]
      dsimp only
      exact splice_get?_lt dta _ row i hi hrow
    · intro i
      have hm := not_mem_shiftRange row count (row + count + i)
        (Or.inr (by omega))
      rw [set_non_nullable_get?, if_neg hm]
      dsimp only
      have hs := splice_get?_ge dta (List.replicate count ({} : RowInfo))
        row i hrow
      rw [List.length_replicate] at hs
      exact hs
  · refine ⟨?_, ?_, ?_, ?_⟩
    · rw [set_disabled_length]
      exact hsplen
    · intro i hi
      have hm := (mem_shiftRange row count i).2 hi
      rw [set_disabled_get?, if_pos hm]
      dsimp only
      rw [hbase i hi]
      simp only [Option.map_some']
      exact congrArg some (rowinfo_comp_eq d n _
        (by rw [decide_eq_decide]; omega) _ _ rfl (by omega))
    · intro i hi
      have hm := not_mem_shiftRange row count i (Or.inl hi)
      rw [set_disabled_get?, if_neg hm]
      dsimp only
      exact splice_get?_lt dta _ row i hi hrow
    · intro i
      have hm := not_mem_shiftRange row count (row + count + i)
        (Or.inr (by omega))
      rw [set_disabled_get?, if_neg hm]
      dsimp only
      have hs := splice_get?_ge dta (List.replicate count ({} : RowInfo))
        row i hrow
      rw [List.length_replicate] at hs
      exact hs
  · refine ⟨hsplen, ?_, ?_, ?_⟩
    · intro i hi
      rw [hbase i hi]
      exact congrArg some (rowinfo_comp_eq d n _
        ((decide_eq_false (by omega)).symm) _ _ (by omega) (by omega))
    · intro i hi
      exact splice_get?_lt dta _ row i hi hrow
    · intro i
      have hs := splice_get?_ge dta (List.replicate count ({} : RowInfo))
        row i hrow
      rw [List.length_replicate] at hs
      exact hs

/-- Claim C4: inserting rows `row .. row+count-1` into the model gives
every inserted bookkeeping row the number of disabled columns as its
disabled-in-progress counter and the number of non-nullable columns as its
non-nullable-in-progress counter, marks it in progress exactly when at
least one column is disabled or non-nullable, leaves all pre-existing
bookkeeping rows unchanged (shifted), and preserves the invariant that a
row is flagged in progress exactly when the sum of its two counters is
positive. -/
theorem c4_insert_in_progress (st : ModelState) (row count : Nat)
    (hmut : st.row_ndx.is_mutable = true) (hcount : 1 ≤ count)
    (hrow : row ≤ st.df.length)
    (hinv : st.df.length = st.row_ndx.data.length) :
    ∃ st2, st.insertRows row count = some (true, st2) ∧
      st2.row_ndx.data.length = st.row_ndx.data.length + count ∧
      (∀ i, i < count → st2.row_ndx.data.get? (row + i) =
        some { in_progress := decide (0 < st.disabledColCount ∨ 0 < st.nonNullableColCount), disabled := false, non_nullable := false, non_nullable_in_progress_count := (st.nonNullableColCount : Int), disabled_in_progress_count := (st.disabledColCount : Int) }) ∧
      (∀ i, i < row →
        st2.row_ndx.data.get? i = st.row_ndx.data.get? i) ∧
      (∀ i, st2.row_ndx.data.get? (row + count + i) =
        st.row_ndx.data.get? (row + i)) ∧
      ((∀ x ∈ st.row_ndx.data, x.in_progress =
          decide (0 < x.disabled_in_progress_count +
            x.non_nullable_in_progress_count)) →
        ∀ x ∈ st2.row_ndx.data, x.in_progress =
          decide (0 < x.disabled_in_progress_count +
            x.non_nullable_in_progress_count)) := by
  have hrow2 : row ≤ st.row_ndx.data.length := hinv ▸ hrow
  unfold ModelState.insertRows
  rw [hmut, if_neg (by simp), if_pos hrow]
  simp only [Option.pure_def, Option.bind_eq_bind, Option.some_bind]
  unfold ModelState.on_rowsInserted
  dsimp only
  unfold Ndx.insert
  rw [if_pos hrow2]
  dsimp only
  simp only [Option.pure_def, Option.bind_eq_bind, Option.some_bind]
  have e1 : row + count - 1 - row + 1 = count := by omega
  have e2 : row + count - 1 + 1 - row = count := by omega
  rw [e1, e2, disabledColCount_mk, nonNullableColCount_mk,
    show st.disabledColCount =
      (st.col_ndx.data.filter (fun x => x.disabled)).length from rfl,
    show st.nonNullableColCount =
      (st.col_ndx.data.filter (fun x => x.non_nullable)).length from rfl]
  have hkey := insert_marks_spec st.row_ndx.data st.row_ndx.is_mutable
    st.row_ndx.count_virtual row count
    ((st.col_ndx.data.filter (fun x => x.disabled)).length)
    ((st.col_ndx.data.filter (fun x => x.non_nullable)).length) hrow2
  dsimp only at hkey
  obtain ⟨hlen, hmid, hlt, hge⟩ := hkey
  refine ⟨_, rfl, hlen, hmid, hlt, hge, ?_⟩
  intro hold x hx
  obtain ⟨i, hi⟩ := List.mem_iff_get?.1 hx
  by_cases h1 : i < row
  · rw [hlt i h1] at hi
    exact hold x (List.get?_mem hi)
  · by_cases h2 : i < row + count
    · have hj : i = row + (i - row) := by omega
      rw [hj, hmid (i - row) (by omega), Option.some.injEq] at hi
      subst hi
      simp only []
      rw [decide_eq_decide]
      omega
    · have hj : i = row + count + (i - row - count) := by omega
      rw [hj, hge (i - row - count)] at hi
      exact hold x (List.get?_mem hi)

/-- Claim C4, witness. -/
theorem c4_insert_in_progress_witness :
    ∃ st2, ModelState.insertRows { df := [], row_ndx := { data := [], is_mutable := true, count_virtual := 1 }, col_ndx := { data := [], is_mutable := false, count_virtual := 0 } } 0 1 = some (true, st2) ∧
      st2.row_ndx.data.length = 0 + 1 ∧
      (∀ i, i < 1 → st2.row_ndx.data.get? (0 + i) = some { in_progress := decide (0 < (0 : Nat) ∨ 0 < (0 : Nat)), disabled := false, non_nullable := false, non_nullable_in_progress_count := ((0 : Nat) : Int), disabled_in_progress_count := ((0 : Nat) : Int) }) ∧
      (∀ i, i < 0 → st2.row_ndx.data.get? i = ([] : List RowInfo).get? i) ∧
      (∀ i, st2.row_ndx.data.get? (0 + 1 + i) = ([] : List RowInfo).get? (0 + i)) ∧
      ((∀ x ∈ ([] : List RowInfo), x.in_progress = decide (0 < x.disabled_in_progress_count + x.non_nullable_in_progress_count)) →
        ∀ x ∈ st2.row_ndx.data, x.in_progress = decide (0 < x.disabled_in_progress_count + x.non_nullable_in_progress_count)) :=
  c4_insert_in_progress _ 0 1 rfl (by decide) (by decide) rfl

theorem cellLeAsc_trans :
    ∀ a b c : Cell, cellLeAsc a b → cellLeAsc b c → cellLeAsc a c := by
  intro a b c
  cases a <;> cases b <;> cases c <;> simp [cellLeAsc] <;> omega

theorem cellLeAsc_total : ∀ a b : Cell, cellLeAsc a b || cellLeAsc b a := by
  intro a b
  cases a <;> cases b <;> simp [cellLeAsc] <;> omega

theorem cellLeDesc_trans :
    ∀ a b c : Cell, cellLeDesc a b → cellLeDesc b c → cellLeDesc a c := by
  intro a b c
  cases a <;> cases b <;> cases c <;> simp [cellLeDesc] <;> omega

theorem cellLeDesc_total : ∀ a b : Cell, cellLeDesc a b || cellLeDesc b a := by
  intro a b
  cases a <;> cases b <;> simp [cellLeDesc] <;> omega

theorem rowLe_trans (asc : Bool) (col : Nat) :
    ∀ a b c, ModelState.rowLe asc col a b → ModelState.rowLe asc col b c →
      ModelState.rowLe asc col a c := by
  intro a b c
  unfold ModelState.rowLe
  cases asc
  · simp only [Bool.false_eq_true, if_false]
    exact cellLeDesc_trans _ _ _
  · simp only [if_true]
    exact cellLeAsc_trans _ _ _

theorem rowLe_total (asc : Bool) (col : Nat) :
    ∀ a b, ModelState.rowLe asc col a b || ModelState.rowLe asc col b a := by
  intro a b
  unfold ModelState.rowLe
  cases asc
  · simp only [Bool.false_eq_true, if_false]
    exact cellLeDesc_total _ _
  · simp only [if_true]
    exact cellLeAsc_total _ _

/-- Claim C6: sorting (from the proxy, which forwards to the model, or on
the model itself) permutes exactly the stored data rows — the virtual row
is never stored in `_df`, and the bookkeeping indexes are untouched — and
orders them by the values of the sorted column, ascending exactly for
`Qt.AscendingOrder` and descending exactly for `Qt.DescendingOrder`, with
null cells placed last either way. -/
theorem c6_sort_spec (st : ModelState) (col : Nat) (order : SortOrder)
    (hinv : st.df.length = st.row_ndx.data.length) :
    ((st.sort col order).df).Perm st.df ∧
      (order = SortOrder.ascendingOrder →
        ((st.sort col order).df.map (ModelState.sortKey col)).Pairwise
          (fun a b => cellLeAsc a b = true)) ∧
      (order = SortOrder.descendingOrder →
        ((st.sort col order).df.map (ModelState.sortKey col)).Pairwise
          (fun a b => cellLeDesc a b = true)) ∧
      (st.sort col order).row_ndx = st.row_ndx ∧
      (st.sort col order).col_ndx = st.col_ndx ∧
      proxySort st col order = st.sort col order := by
  have hlen : st.df.length ≤ st.row_ndx.count := by
    unfold Ndx.count
    omega
  unfold ModelState.sort
  dsimp only
  rw [List.take_of_length_le hlen, List.drop_eq_nil_of_le hlen,
    List.append_nil]
  refine ⟨List.mergeSort_perm st.df _, ?_, ?_, rfl, rfl, ?_⟩
  · intro hord
    subst hord
    rw [show decide (SortOrder.ascendingOrder = SortOrder.ascendingOrder)
      = true by decide]
    rw [List.pairwise_map]
    exact List.sorted_mergeSort (rowLe_trans true col) (rowLe_total true col)
      st.df
  · intro hord
    subst hord
    rw [show decide (SortOrder.descendingOrder = SortOrder.ascendingOrder)
      = false by decide]
    rw [List.pairwise_map]
    exact List.sorted_mergeSort (rowLe_trans false col)
      (rowLe_total false col) st.df
  · unfold proxySort ModelState.sort
    dsimp only
    rw [List.take_of_length_le hlen, List.drop_eq_nil_of_le hlen,
      List.append_nil]

/-- Claim C6, witness. -/
theorem c6_sort_spec_witness :
    ((ModelState.sort { df := [[some 2], [some 1]], row_ndx := { data := [{}, {}], is_mutable := true, count_virtual := 1 }, col_ndx := { data := [{}], is_mutable := false, count_virtual := 0 } } 0 SortOrder.ascendingOrder).df).Perm [[some 2], [some 1]] ∧
      (SortOrder.ascendingOrder = SortOrder.ascendingOrder →
        ((ModelState.sort { df := [[some 2], [some 1]], row_ndx := { data := [{}, {}], is_mutable := true, count_virtual := 1 }, col_ndx := { data := [{}], is_mutable := false, count_virtual := 0 } } 0 SortOrder.ascendingOrder).df.map (ModelState.sortKey 0)).Pairwise (fun a b => cellLeAsc a b = true)) ∧
      (SortOrder.ascendingOrder = SortOrder.descendingOrder →
        ((ModelState.sort { df := [[some 2], [some 1]], row_ndx := { data := [{}, {}], is_mutable := true, count_virtual := 1 }, col_ndx := { data := [{}], is_mutable := false, count_virtual := 0 } } 0 SortOrder.ascendingOrder).df.map (ModelState.sortKey 0)).Pairwise (fun a b => cellLeDesc a b = true)) ∧
      (ModelState.sort { df := [[some 2], [some 1]], row_ndx := { data := [{}, {}], is_mutable := true, count_virtual := 1 }, col_ndx := { data := [{}], is_mutable := false, count_virtual := 0 } } 0 SortOrder.ascendingOrder).row_ndx = { data := [{}, {}], is_mutable := true, count_virtual := 1 } ∧
      (ModelState.sort { df := [[some 2], [some 1]], row_ndx := { data := [{}, {}], is_mutable := true, count_virtual := 1 }, col_ndx := { data := [{}], is_mutable := false, count_virtual := 0 } } 0 SortOrder.ascendingOrder).col_ndx = { data := [{}], is_mutable := false, count_virtual := 0 } ∧
      proxySort { df := [[some 2], [some 1]], row_ndx := { data := [{}, {}], is_mutable := true, count_virtual := 1 }, col_ndx := { data := [{}], is_mutable := false, count_virtual := 0 } } 0 SortOrder.ascendingOrder = ModelState.sort { df := [[some 2], [some 1]], row_ndx := { data := [{}, {}], is_mutable := true, count_virtual := 1 }, col_ndx := { data := [{}], is_mutable := false, count_virtual := 0 } } 0 SortOrder.ascendingOrder :=
  c6_sort_spec _ 0 SortOrder.ascendingOrder rfl

theorem insert_series_spec (s : Series Bool) (first count : Nat)
    (hle : first ≤ s.length) :
    ∃ t, pandas_obj_insert_rows s first
        ((List.range count).map (fun i => (first + i, true))) = some t ∧
      seriesValues t = (seriesValues s).take first ++
        List.replicate count true ++ (seriesValues s).drop first ∧
      t.length = s.length + count := by
  unfold pandas_obj_insert_rows
  rw [if_pos hle]
  refine ⟨_, rfl, ?_, ?_⟩
  · unfold seriesValues
    simp only [List.map_append, List.map_map, List.map_take, List.map_drop]
    congr 1
    · congr 1
      show (List.range count).map (fun _ => true) = List.replicate count true
      rw [List.map_const', List.length_range]
  · simp only [List.length_append, List.length_take, List.length_map,
      List.length_drop, List.length_range]
    omega

theorem remove_series_spec (s : Series Bool) (first count : Nat)
    (hle : first + count ≤ s.length)
    (hnodup : (s.map Prod.fst).Nodup) :
    ∃ t, pandas_obj_remove_rows s first count = some t ∧
      seriesValues t = (seriesValues s).take first ++
        (seriesValues s).drop (first + count) ∧
      t.length = s.length - count := by
  have hdecomp : s = s.take first ++ (s.drop first).take count ++
      s.drop (first + count) := by
    rw [List.append_assoc]
    rw [show s.drop (first + count) = (s.drop first).drop count by
      rw [List.drop_drop]]
    rw [List.take_append_drop, List.take_append_drop]
  obtain ⟨A, B, C, hABC, hlA, hlB⟩ :
      ∃ A B C : List (Nat × Bool),
        s = A ++ B ++ C ∧ A.length = first ∧ B.length = count :=
    ⟨_, _, _, hdecomp, by rw [List.length_take]; omega,
      by rw [List.length_take, List.length_drop]; omega⟩
  subst hABC
  have hB : ((A ++ B ++ C).drop first).take count = B := by
    rw [← hlA, List.append_assoc, List.drop_left, ← hlB, List.take_left]
  have hnd2 : (A.map (fun x : Nat × Bool => x.1) ++
      (B.map (fun x : Nat × Bool => x.1) ++
        C.map (fun x : Nat × Bool => x.1))).Nodup := by
    rw [← List.map_append, ← List.map_append, ← List.append_assoc]
    exact hnodup
  have hdisAB : (A.map (fun x : Nat × Bool => x.1)).Disjoint
      (B.map (fun x : Nat × Bool => x.1)) := by
    intro a haA haB
    exact (List.nodup_append.1 hnd2).2.2 haA (List.mem_append_left _ haB)
  have hdisBC : (B.map (fun x : Nat × Bool => x.1)).Disjoint
      (C.map (fun x : Nat × Bool => x.1)) := by
    exact (List.nodup_append.1 ((List.nodup_append.1 hnd2).2.1)).2.2
  have hfilter : (A ++ B ++ C).filter (fun p => decide
      (p.1 ∉ B.map (fun x : Nat × Bool => x.1))) = A ++ C := by
    rw [List.filter_append, List.filter_append]
    rw [List.filter_eq_self.2 (fun p hp => by
      simp only [decide_eq_true_eq]
      exact fun hmem =>
        hdisAB (List.mem_map_of_mem (fun x : Nat × Bool => x.1) hp) hmem)]
    rw [List.filter_eq_nil.2 (fun p hp => by
      simp only [decide_eq_true_eq, not_not]
      exact List.mem_map_of_mem (fun x : Nat × Bool => x.1) hp)]
    rw [List.filter_eq_self.2 (fun p hp => by
      simp only [decide_eq_true_eq]
      exact fun hmem =>
        hdisBC hmem (List.mem_map_of_mem (fun x : Nat × Bool => x.1) hp))]
    rw [List.append_nil]
  have hvals : (A ++ B ++ C).map (fun x : Nat × Bool => x.2) =
      A.map (fun x : Nat × Bool => x.2) ++ B.map (fun x : Nat × Bool => x.2)
        ++ C.map (fun x : Nat × Bool => x.2) := by
    rw [List.map_append, List.map_append]
  have htakevals : ((A ++ B ++ C).map (fun x : Nat × Bool => x.2)).take first
      = A.map (fun x : Nat × Bool => x.2) := by
    rw [hvals, List.append_assoc,
      show first = (A.map (fun x : Nat × Bool => x.2)).length by
        rw [List.length_map, hlA],
      List.take_left]
  have hdropvals : ((A ++ B ++ C).map
        (fun x : Nat × Bool => x.2)).drop (first + count) =
      C.map (fun x : Nat × Bool => x.2) := by
    rw [hvals,
      show first + count = (A.map (fun x : Nat × Bool => x.2) ++
          B.map (fun x : Nat × Bool => x.2)).length by
        rw [List.length_append, List.length_map, List.length_map, hlA, hlB],
      List.drop_left]
  have henum : ∀ l : List Bool,
      (l.enum).map (fun x : Nat × Bool => x.2) = l :=
    fun l => List.enum_map_snd l
  unfold pandas_obj_remove_rows
  rw [if_pos hle]
  refine ⟨_, rfl, ?_, ?_⟩
  · rw [hB, hfilter]
    unfold seriesValues
    rw [henum, List.map_append, htakevals, hdropvals]
  · rw [hB, hfilter]
    simp only [List.enum_length, List.length_map, List.length_append]
    omega

theorem mapCacheM_spec (f : Series Bool → Option (Series Bool))
    (P : Series Bool → Series Bool → Prop)
    (cache : List (Int × Series Bool))
    (h : ∀ p ∈ cache, ∃ t, f p.2 = some t ∧ P p.2 t) :
    ∃ cache2, mapCacheM f cache = some cache2 ∧
      List.Forall₂ (fun p q => p.1 = q.1 ∧ P p.2 q.2) cache cache2 := by
  induction cache with
  | nil => exact ⟨[], rfl, List.Forall₂.nil⟩
  | cons p rest ih =>
    obtain ⟨c, m⟩ := p
    obtain ⟨t, hft, hPt⟩ := h (c, m) (List.mem_cons_self _ _)
    obtain ⟨c2, hc2, hf2⟩ := ih (fun q hq => h q (List.mem_cons_of_mem _ hq))
    refine ⟨(c, t) :: c2, ?_, List.Forall₂.cons ⟨rfl, hPt⟩ hf2⟩
    unfold mapCacheM
    rw [hft, hc2]

/-- Claim C2, counterexample.  Build a reachable proxy state: filter
column 0 over the full two-row index, then filter column 1 — whose mask, as
produced by `get_model_values`, only covers the single row accepted by the
first filter.  That cached mask has length 1 while the source (and the
`accepted` series) has length 2, refuting the invariant that every cached
mask always has the same length as the source data; and a subsequent
insertion at the bottom (rows 2..2, as a virtual-row commit would emit)
raises an `IndexError` inside `pandas_obj_insert_rows` (modelled as
`none`), so the masks do not gain the claimed entries. -/
theorem c2_counterexample :
    on_rows_inserted (add_filter_mask 1 [(0, true)]
        (add_filter_mask 0 [(0, true), (1, false)] (initProxy 2))) 2 2
      = none ∧
      ¬ (∀ p ∈ (add_filter_mask 1 [(0, true)]
          (add_filter_mask 0 [(0, true), (1, false)]
            (initProxy 2))).filter_cache,
        p.2.length = (add_filter_mask 1 [(0, true)]
          (add_filter_mask 0 [(0, true), (1, false)]
            (initProxy 2))).accepted.length) := by
  constructor
  · rfl
  · decide

/-- Claim C2, amended: provided every cached mask (and `accepted`) covers
at least rows `0..last` of its object — true for full-length masks, but
false for the shorter masks cached for later-filtered columns — and has
duplicate-free labels, a row insertion of `first..last` makes every cached
mask and `accepted` gain exactly `last-first+1` new `True` entries at
position `first` with all previously existing values unchanged in order,
and a removal of rows `first..last` removes exactly those positions with
the remaining values unchanged; so a mask as long as the source stays as
long as the source, but masks shorter than the source exist and for them
the synchronization can raise instead. -/
theorem c2_amended (st : ProxyState) (first last : Nat) (hfl : first ≤ last)
    (hm : ∀ p ∈ st.filter_cache, last + 1 ≤ p.2.length ∧
      (p.2.map Prod.fst).Nodup)
    (ha : last + 1 ≤ st.accepted.length ∧
      (st.accepted.map Prod.fst).Nodup) :
    (∃ st2, on_rows_inserted st first last = some st2 ∧
      List.Forall₂ (fun p q => p.1 = q.1 ∧
        seriesValues q.2 = (seriesValues p.2).take first ++
          List.replicate (last + 1 - first) true ++
          (seriesValues p.2).drop first) st.filter_cache st2.filter_cache ∧
      seriesValues st2.accepted = (seriesValues st.accepted).take first ++
        List.replicate (last + 1 - first) true ++
        (seriesValues st.accepted).drop first) ∧
    (∃ st3, on_rows_removed st first last = some st3 ∧
      List.Forall₂ (fun p q => p.1 = q.1 ∧
        seriesValues q.2 = (seriesValues p.2).take first ++
          (seriesValues p.2).drop (last + 1)) st.filter_cache
        st3.filter_cache ∧
      seriesValues st3.accepted = (seriesValues st.accepted).take first ++
        (seriesValues st.accepted).drop (last + 1)) := by
  constructor
  · obtain ⟨cache2, hc2, hf2⟩ := mapCacheM_spec
      (fun mk => pandas_obj_insert_rows mk first
        ((List.range (last + 1 - first)).map (fun i => (first + i, true))))
      (fun mk t => seriesValues t = (seriesValues mk).take first ++
        List.replicate (last + 1 - first) true ++ (seriesValues mk).drop first)
      st.filter_cache
      (fun p hp => by
        obtain ⟨t, h1, h2, _⟩ := insert_series_spec p.2 first
          (last + 1 - first) (by have := (hm p hp).1; omega)
        exact ⟨t, h1, h2⟩)
    obtain ⟨tacc, hacc1, hacc2, _⟩ := insert_series_spec st.accepted first
      (last + 1 - first) (by have := ha.1; omega)
    refine ⟨{ filter_cache := cache2, accepted := tacc }, ?_, hf2, hacc2⟩
    unfold on_rows_inserted
    dsimp only
    rw [hc2, hacc1]
  · have harith : first + (last - first + 1) = last + 1 := by omega
    obtain ⟨cache3, hc3, hf3⟩ := mapCacheM_spec
      (fun mk => pandas_obj_remove_rows mk first (last - first + 1))
      (fun mk t => seriesValues t = (seriesValues mk).take first ++
        (seriesValues mk).drop (last + 1))
      st.filter_cache
      (fun p hp => by
        obtain ⟨t, h1, h2, _⟩ := remove_series_spec p.2 first
          (last - first + 1) (by have := (hm p hp).1; omega) (hm p hp).2
        rw [harith] at h2
        exact ⟨t, h1, h2⟩)
    obtain ⟨tacc, hacc1, hacc2, _⟩ := remove_series_spec st.accepted first
      (last - first + 1) (by have := ha.1; omega) ha.2
    rw [harith] at hacc2
    refine ⟨{ filter_cache := cache3, accepted := tacc }, ?_, hf3, hacc2⟩
    unfold on_rows_removed
    dsimp only
    rw [hc3, hacc1]

/-- Claim C2, witness for the amended theorem. -/
theorem c2_amended_witness :
    (∃ st2, on_rows_inserted (initProxy 1) 0 0 = some st2 ∧
      List.Forall₂ (fun p q => p.1 = q.1 ∧ seriesValues q.2 = (seriesValues p.2).take 0 ++ List.replicate (0 + 1 - 0) true ++ (seriesValues p.2).drop 0) (initProxy 1).filter_cache st2.filter_cache ∧
      seriesValues st2.accepted = (seriesValues (initProxy 1).accepted).take 0 ++ List.replicate (0 + 1 - 0) true ++ (seriesValues (initProxy 1).accepted).drop 0) ∧
    (∃ st3, on_rows_removed (initProxy 1) 0 0 = some st3 ∧
      List.Forall₂ (fun p q => p.1 = q.1 ∧ seriesValues q.2 = (seriesValues p.2).take 0 ++ (seriesValues p.2).drop (0 + 1)) (initProxy 1).filter_cache st3.filter_cache ∧
      seriesValues st3.accepted = (seriesValues (initProxy 1).accepted).take 0 ++ (seriesValues (initProxy 1).accepted).drop (0 + 1)) :=
  c2_amended (initProxy 1) 0 0 (by decide) (by decide) (by decide)

theorem reduce_disabled_disCountAt (n : Ndx) (row : Nat) :
    disCountAt (n.reduce_disabled_in_progress row) row =
      (disCountAt n row).map (· - 1) := by
  unfold Ndx.reduce_disabled_in_progress Ndx.update_in_progress disCountAt
  dsimp only
  rw [updateAt_get?, updateAt_get?,
    if_pos (List.mem_singleton.2 rfl), if_pos (List.mem_singleton.2 rfl)]
  rcases n.data.get? row with _ | x <;> rfl

theorem reduce_disabled_nnCountAt (n : Ndx) (row : Nat) :
    nnCountAt (n.reduce_disabled_in_progress row) row = nnCountAt n row := by
  unfold Ndx.reduce_disabled_in_progress Ndx.update_in_progress nnCountAt
  dsimp only
  rw [updateAt_get?, updateAt_get?,
    if_pos (List.mem_singleton.2 rfl), if_pos (List.mem_singleton.2 rfl)]
  rcases n.data.get? row with _ | x <;> rfl

theorem reduce_nn_nnCountAt (n : Ndx) (row : Nat) :
    nnCountAt (n.reduce_non_nullable_in_progress row) row =
      (nnCountAt n row).map (· - 1) := by
  unfold Ndx.reduce_non_nullable_in_progress Ndx.update_in_progress nnCountAt
  dsimp only
  rw [updateAt_get?, updateAt_get?,
    if_pos (List.mem_singleton.2 rfl), if_pos (List.mem_singleton.2 rfl)]
  rcases n.data.get? row with _ | x <;> rfl

theorem reduce_nn_disCountAt (n : Ndx) (row : Nat) :
    disCountAt (n.reduce_non_nullable_in_progress row) row =
      disCountAt n row := by
  unfold Ndx.reduce_non_nullable_in_progress Ndx.update_in_progress disCountAt
  dsimp only
  rw [updateAt_get?, updateAt_get?,
    if_pos (List.mem_singleton.2 rfl), if_pos (List.mem_singleton.2 rfl)]
  rcases n.data.get? row with _ | x <;> rfl

/-- Claim C5, counterexample.  A model whose virtual row is enabled while
the row index is immutable (both flags are publicly settable, and
`set_read_only` passes the same boolean to both) has a valid index on the
virtual row, but `setData` there does not insert a row (`insertRows`
refuses and its result is ignored) and the subsequent positional cell
write raises `IndexError` (modelled as `none`) instead of writing the
value and returning `True`. -/
theorem c5_counterexample :
    1 < ModelState.rowCount { df := [[some 5]], row_ndx := { data := [{}], is_mutable := false, count_virtual := 1 }, col_ndx := { data := [{}], is_mutable := true, count_virtual := 0 } } ∧
      ModelState.setData { df := [[some 5]], row_ndx := { data := [{}], is_mutable := false, count_virtual := 1 }, col_ndx := { data := [{}], is_mutable := true, count_virtual := 0 } } 1 0 (some 7) = none := by
  exact ⟨by decide, rfl⟩

/-- Claim C5, amended: for every valid index `setData` writes the value
into the data frame at that cell and returns `True`, inserting a real row
first when the target is the virtual row — provided the row index is
mutable whenever the virtual row is targeted (with an immutable row index
the ignored `insertRow` refusal makes the subsequent write raise); and for
a non-virtual in-progress target row, an edit to a disabled column
decrements the disabled-in-progress counter by one, an edit placing a
non-null value into a non-nullable column decrements the
non-nullable-in-progress counter by one, and no other counter changes. -/
theorem c5_amended (st : ModelState) (row col : Nat) (value : Cell)
    (hrow : row < st.rowCount)
    (hinv : st.df.length = st.row_ndx.data.length)
    (hrect : ∀ r ∈ st.df, r.length = st.col_ndx.data.length)
    (hcol : col < st.col_ndx.data.length)
    (hvir : st.row_ndx.count_virtual ≤ 1)
    (hvm : st.row_ndx.is_virtual row = true →
      st.row_ndx.is_mutable = true) :
    ∃ st2, st.setData row col value = some (true, st2) ∧
      ModelState.dfGet st2.df row col = some value ∧
      st2.df.length = st.df.length +
        (if st.row_ndx.is_virtual row then 1 else 0) ∧
      (st.row_ndx.is_virtual row = false →
        (ModelState.inProgressAt st.row_ndx row = true →
          (ModelState.disabledColAt st.col_ndx col = true →
            disCountAt st2.row_ndx row =
              (disCountAt st.row_ndx row).map (· - 1)) ∧
          (ModelState.disabledColAt st.col_ndx col = false →
            disCountAt st2.row_ndx row = disCountAt st.row_ndx row) ∧
          (ModelState.nonNullableColAt st.col_ndx col = true →
            value ≠ none →
            nnCountAt st2.row_ndx row =
              (nnCountAt st.row_ndx row).map (· - 1)) ∧
          (ModelState.nonNullableColAt st.col_ndx col = true →
            value = none →
            nnCountAt st2.row_ndx row = nnCountAt st.row_ndx row) ∧
          (ModelState.nonNullableColAt st.col_ndx col = false →
            nnCountAt st2.row_ndx row = nnCountAt st.row_ndx row)) ∧
        (ModelState.inProgressAt st.row_ndx row = false →
          st2.row_ndx = st.row_ndx)) := by
  rcases hv : st.row_ndx.is_virtual row with _ | _
  · -- non-virtual target row
    simp only [Bool.false_eq_true, if_false, Nat.add_zero]
    have hrowlt : row < st.df.length := by
      unfold Ndx.is_virtual at hv
      unfold ModelState.rowCount Ndx.count at hrow
      rcases Bool.and_eq_false_iff.1 hv with h1 | h1
      · rw [decide_eq_false_iff_not] at h1
        have : st.row_ndx.count_virtual = 0 := by omega
        omega
      · rw [decide_eq_false_iff_not] at h1
        omega
    obtain ⟨r, hr⟩ : ∃ r, st.df.get? row = some r := by
      rcases hg : st.df.get? row with _ | r
      · rw [List.get?_eq_none] at hg
        omega
      · exact ⟨r, rfl⟩
    have hrlen : col < r.length := by
      rw [hrect r (List.get?_mem hr)]
      exact hcol
    have hdfset : ModelState.dfSet st.df row col value =
        some (st.df.set row (r.set col value)) := by
      unfold ModelState.dfSet
      rw [hr]
      simp only [Option.pure_def, Option.bind_eq_bind, Option.some_bind]
      rw [if_pos hrlen]
    have hdfget : ModelState.dfGet (st.df.set row (r.set col value)) row col
        = some value := by
      unfold ModelState.dfGet
      rw [List.get?_eq_getElem?, List.getElem?_set_self hrowlt]
      simp only [Option.pure_def, Option.bind_eq_bind, Option.some_bind]
      rw [List.get?_eq_getElem?, List.getElem?_set_self hrlen]
    have hlenset : (st.df.set row (r.set col value)).length =
        st.df.length := by
      rw [List.length_set]
    unfold ModelState.setData
    rw [hv]
    simp only [Bool.false_eq_true, if_false, Option.pure_def,
      Option.bind_eq_bind, Option.some_bind]
    rw [hdfset]
    simp only [Option.some_bind]
    rcases hp : ModelState.inProgressAt st.row_ndx row with _ | _
    · simp only [Bool.false_eq_true, if_false]
      refine ⟨_, rfl, hdfget, hlenset, ?_⟩
      intro _
      refine ⟨fun hip => absurd hip (by simp), fun _ => rfl⟩
    · rw [if_pos rfl]
      rcases hd : ModelState.disabledColAt st.col_ndx col with _ | _
      · simp only [Bool.false_eq_true, if_false]
        rcases hnn : ModelState.nonNullableColAt st.col_ndx col with _ | _
        · simp only [Bool.false_eq_true, if_false]
          refine ⟨_, rfl, hdfget, hlenset, ?_⟩
          intro _
          refine ⟨?_, fun hip => absurd hip (by simp)⟩
          intro _
          exact ⟨fun hdd => absurd hdd (by simp), fun _ => rfl,
            fun hnn2 _ => absurd hnn2 (by simp),
            fun hnn2 _ => absurd hnn2 (by simp), fun _ => rfl⟩
        · rw [if_pos rfl]
          rw [hdfget]
          rcases value with _ | v
          · refine ⟨_, rfl, hdfget, hlenset, ?_⟩
            intro _
            refine ⟨?_, fun hip => absurd hip (by simp)⟩
            intro _
            exact ⟨fun hdd => absurd hdd (by simp), fun _ => rfl,
              fun _ hvn => absurd rfl hvn, fun _ _ => rfl, fun _ => rfl⟩
          · refine ⟨_, rfl, hdfget, hlenset, ?_⟩
            intro _
            refine ⟨?_, fun hip => absurd hip (by simp)⟩
            intro _
            exact ⟨fun hdd => absurd hdd (by simp),
              fun _ => reduce_nn_disCountAt st.row_ndx row,
              fun _ _ => reduce_nn_nnCountAt st.row_ndx row,
              fun _ hvn => absurd hvn (by simp),
              fun hnn2 => absurd hnn2 (by simp)⟩
      · rw [if_pos rfl]
        rcases hnn : ModelState.nonNullableColAt st.col_ndx col with _ | _
        · simp only [Bool.false_eq_true, if_false]
          refine ⟨_, rfl, hdfget, hlenset, ?_⟩
          intro _
          refine ⟨?_, fun hip => absurd hip (by simp)⟩
          intro _
          exact ⟨fun _ => reduce_disabled_disCountAt st.row_ndx row,
            fun hdd => absurd hdd (by simp),
            fun hnn2 _ => absurd hnn2 (by simp),
            fun hnn2 _ => absurd hnn2 (by simp),
            fun _ => reduce_disabled_nnCountAt st.row_ndx row⟩
        · rw [if_pos rfl]
          rw [hdfget]
          rcases value with _ | v
          · refine ⟨_, rfl, hdfget, hlenset, ?_⟩
            intro _
            refine ⟨?_, fun hip => absurd hip (by simp)⟩
            intro _
            exact ⟨fun _ => reduce_disabled_disCountAt st.row_ndx row,
              fun hdd => absurd hdd (by simp),
              fun _ hvn => absurd rfl hvn,
              fun _ _ => reduce_disabled_nnCountAt st.row_ndx row,
              fun hnn2 => absurd hnn2 (by simp)⟩
          · refine ⟨_, rfl, hdfget, hlenset, ?_⟩
            intro _
            refine ⟨?_, fun hip => absurd hip (by simp)⟩
            intro _
            refine ⟨fun _ => ?_, fun hdd => absurd hdd (by simp),
              fun _ _ => ?_, fun _ hvn => absurd hvn (by simp),
              fun hnn2 => absurd hnn2 (by simp)⟩
            · rw [reduce_nn_disCountAt, reduce_disabled_disCountAt]
            · rw [reduce_nn_nnCountAt, reduce_disabled_nnCountAt]
  · -- virtual target row: a real row is inserted first
    have hmut := hvm hv
    have hlenle : st.row_ndx.data.length ≤ row := by
      unfold Ndx.is_virtual at hv
      rcases Bool.and_eq_true_iff.1 hv with ⟨h1, h2⟩
      rw [decide_eq_true_eq] at h2
      exact h2
    have hroweq : row = st.df.length := by
      unfold ModelState.rowCount Ndx.count at hrow
      omega
    have hrow2 : row ≤ st.row_ndx.data.length := by omega
    unfold ModelState.setData
    rw [hv]
    rw [if_pos rfl]
    unfold ModelState.insertRows
    rw [hmut, if_neg (by simp), if_pos (le_of_eq hroweq)]
    simp only [Option.pure_def, Option.bind_eq_bind, Option.some_bind]
    unfold ModelState.on_rowsInserted
    dsimp only
    unfold Ndx.insert
    rw [if_pos hrow2]
    dsimp only
    simp only [Option.pure_def, Option.bind_eq_bind, Option.some_bind]
    have e1 : row + 1 - 1 - row + 1 = 1 := by omega
    have e2 : row + 1 - 1 + 1 - row = 1 := by omega
    rw [e1, e2]
    simp only [Option.map_some']
    simp only [Option.pure_def, Option.bind_eq_bind, Option.some_bind]
    have hmidlen : (st.df.take row ++
        List.replicate 1 (List.replicate st.col_ndx.data.length
          (none : Cell)) ++ st.df.drop row).length = st.df.length + 1 := by
      have := splice_length st.df
        (List.replicate 1 (List.replicate st.col_ndx.data.length
          (none : Cell))) row (le_of_eq hroweq)
      rw [List.length_replicate] at this
      exact this
    have hrnew : (st.df.take row ++
        List.replicate 1 (List.replicate st.col_ndx.data.length
          (none : Cell)) ++ st.df.drop row).get? row =
        some (List.replicate st.col_ndx.data.length (none : Cell)) := by
      have hs := splice_get?_mid st.df
        (List.replicate 1 (List.replicate st.col_ndx.data.length
          (none : Cell))) row 0 (by rw [List.length_replicate]; omega)
        (le_of_eq hroweq)
      rw [Nat.add_zero] at hs
      exact hs
    have hrnewlen : col <
        (List.replicate st.col_ndx.data.length (none : Cell)).length := by
      rw [List.length_replicate]
      exact hcol
    have hrowlt2 : row < (st.df.take row ++
        List.replicate 1 (List.replicate st.col_ndx.data.length
          (none : Cell)) ++ st.df.drop row).length := by
      rw [hmidlen]
      omega
    have hdfset : ModelState.dfSet (st.df.take row ++
        List.replicate 1 (List.replicate st.col_ndx.data.length
          (none : Cell)) ++ st.df.drop row) row col value =
        some ((st.df.take row ++
          List.replicate 1 (List.replicate st.col_ndx.data.length
            (none : Cell)) ++ st.df.drop row).set row
          ((List.replicate st.col_ndx.data.length (none : Cell)).set col
            value)) := by
      unfold ModelState.dfSet
      rw [hrnew]
      simp only [Option.pure_def, Option.bind_eq_bind, Option.some_bind]
      rw [if_pos hrnewlen]
    have hdfget : ModelState.dfGet ((st.df.take row ++
        List.replicate 1 (List.replicate st.col_ndx.data.length
          (none : Cell)) ++ st.df.drop row).set row
        ((List.replicate st.col_ndx.data.length (none : Cell)).set col
          value)) row col = some value := by
      unfold ModelState.dfGet
      rw [List.get?_eq_getElem?, List.getElem?_set_self hrowlt2]
      simp only [Option.pure_def, Option.bind_eq_bind, Option.some_bind]
      rw [List.get?_eq_getElem?, List.getElem?_set_self hrnewlen]
    rw [hdfset]
    simp only [Option.some_bind]
    refine ⟨_, rfl, ?_, ?_, fun hcontra => absurd hcontra (by simp)⟩
    · have hall : ∀ st2 : ModelState, st2.df = ((st.df.take row ++
          List.replicate 1 (List.replicate st.col_ndx.data.length
            (none : Cell)) ++ st.df.drop row).set row
          ((List.replicate st.col_ndx.data.length (none : Cell)).set col
            value)) → ModelState.dfGet st2.df row col = some value := by
        intro st2 h2
        rw [h2]
        exact hdfget
      apply hall
      repeat' split
      all_goals rfl
    · have hall : ∀ st2 : ModelState, st2.df = ((st.df.take row ++
          List.replicate 1 (List.replicate st.col_ndx.data.length
            (none : Cell)) ++ st.df.drop row).set row
          ((List.replicate st.col_ndx.data.length (none : Cell)).set col
            value)) → st2.df.length = st.df.length +
            (if (true : Bool) then 1 else 0) := by
        intro st2 h2
        rw [h2, if_pos rfl, List.length_set]
        exact hmidlen
      apply hall
      repeat' split
      all_goals rfl

/-- Claim C5, witness for the amended theorem. -/
theorem c5_amended_witness :
    ∃ st2, ModelState.setData { df := [[some 1]], row_ndx := { data := [{}], is_mutable := true, count_virtual := 1 }, col_ndx := { data := [{}], is_mutable := false, count_virtual := 0 } } 0 0 (some 9) = some (true, st2) ∧
      ModelState.dfGet st2.df 0 0 = some (some 9) ∧
      st2.df.length = (ModelState.df { df := [[some 1]], row_ndx := { data := [{}], is_mutable := true, count_virtual := 1 }, col_ndx := { data := [{}], is_mutable := false, count_virtual := 0 } }).length +
        (if Ndx.is_virtual (ModelState.row_ndx { df := [[some 1]], row_ndx := { data := [{}], is_mutable := true, count_virtual := 1 }, col_ndx := { data := [{}], is_mutable := false, count_virtual := 0 } }) 0 then 1 else 0) ∧
      (Ndx.is_virtual (ModelState.row_ndx { df := [[some 1]], row_ndx := { data := [{}], is_mutable := true, count_virtual := 1 }, col_ndx := { data := [{}], is_mutable := false, count_virtual := 0 } }) 0 = false →
        (ModelState.inProgressAt (ModelState.row_ndx { df := [[some 1]], row_ndx := { data := [{}], is_mutable := true, count_virtual := 1 }, col_ndx := { data := [{}], is_mutable := false, count_virtual := 0 } }) 0 = true →
          (ModelState.disabledColAt (ModelState.col_ndx { df := [[some 1]], row_ndx := { data := [{}], is_mutable := true, count_virtual := 1 }, col_ndx := { data := [{}], is_mutable := false, count_virtual := 0 } }) 0 = true →
            disCountAt st2.row_ndx 0 =
              (disCountAt (ModelState.row_ndx { df := [[some 1]], row_ndx := { data := [{}], is_mutable := true, count_virtual := 1 }, col_ndx := { data := [{}], is_mutable := false, count_virtual := 0 } }) 0).map (· - 1)) ∧
          (ModelState.disabledColAt (ModelState.col_ndx { df := [[some 1]], row_ndx := { data := [{}], is_mutable := true, count_virtual := 1 }, col_ndx := { data := [{}], is_mutable := false, count_virtual := 0 } }) 0 = false →
            disCountAt st2.row_ndx 0 =
              disCountAt (ModelState.row_ndx { df := [[some 1]], row_ndx := { data := [{}], is_mutable := true, count_virtual := 1 }, col_ndx := { data := [{}], is_mutable := false, count_virtual := 0 } }) 0) ∧
          (ModelState.nonNullableColAt (ModelState.col_ndx { df := [[some 1]], row_ndx := { data := [{}], is_mutable := true, count_virtual := 1 }, col_ndx := { data := [{}], is_mutable := false, count_virtual := 0 } }) 0 = true →
            (some 9 : Cell) ≠ none →
            nnCountAt st2.row_ndx 0 =
              (nnCountAt (ModelState.row_ndx { df := [[some 1]], row_ndx := { data := [{}], is_mutable := true, count_virtual := 1 }, col_ndx := { data := [{}], is_mutable := false, count_virtual := 0 } }) 0).map (· - 1)) ∧
          (ModelState.nonNullableColAt (ModelState.col_ndx { df := [[some 1]], row_ndx := { data := [{}], is_mutable := true, count_virtual := 1 }, col_ndx := { data := [{}], is_mutable := false, count_virtual := 0 } }) 0 = true →
            (some 9 : Cell) = none →
            nnCountAt st2.row_ndx 0 =
              nnCountAt (ModelState.row_ndx { df := [[some 1]], row_ndx := { data := [{}], is_mutable := true, count_virtual := 1 }, col_ndx := { data := [{}], is_mutable := false, count_virtual := 0 } }) 0) ∧
          (ModelState.nonNullableColAt (ModelState.col_ndx { df := [[some 1]], row_ndx := { data := [{}], is_mutable := true, count_virtual := 1 }, col_ndx := { data := [{}], is_mutable := false, count_virtual := 0 } }) 0 = false →
            nnCountAt st2.row_ndx 0 =
              nnCountAt (ModelState.row_ndx { df := [[some 1]], row_ndx := { data := [{}], is_mutable := true, count_virtual := 1 }, col_ndx := { data := [{}], is_mutable := false, count_virtual := 0 } }) 0)) ∧
        (ModelState.inProgressAt (ModelState.row_ndx { df := [[some 1]], row_ndx := { data := [{}], is_mutable := true, count_virtual := 1 }, col_ndx := { data := [{}], is_mutable := false, count_virtual := 0 } }) 0 = false →
          st2.row_ndx = ModelState.row_ndx { df := [[some 1]], row_ndx := { data := [{}], is_mutable := true, count_virtual := 1 }, col_ndx := { data := [{}], is_mutable := false, count_virtual := 0 } })) :=
  c5_amended { df := [[some 1]], row_ndx := { data := [{}], is_mutable := true, count_virtual := 1 }, col_ndx := { data := [{}], is_mutable := false, count_virtual := 0 } } 0 0 (some 9) (by decide) rfl (by decide) (by decide)
    (by decide) (by decide)

theorem strictSorted_length_bound :
    ∀ (l : List Nat) (lo hi : Nat), l.Pairwise (· < ·) →
      (∀ x ∈ l, lo ≤ x) → (∀ x ∈ l, x < hi) → l = [] ∨ lo + l.length ≤ hi := by
  intro l
  induction l with
  | nil => intro lo hi _ _ _; exact Or.inl rfl
  | cons a t ih =>
    intro lo hi hp hlo hhi
    right
    have hat := List.pairwise_cons.1 hp
    rcases ih (a + 1) hi hat.2 (fun x hx => hat.1 x hx)
        (fun x hx => hhi x (List.mem_cons_of_mem _ hx)) with h | h
    · subst h
      have := hhi a (List.mem_cons_self _ _)
      have := hlo a (List.mem_cons_self _ _)
      simp only [List.length_cons, List.length_nil]
      omega
    · have := hlo a (List.mem_cons_self _ _)
      simp only [List.length_cons]
      omega

theorem strictSorted_getLast_ge :
    ∀ (l : List Nat) (h : l ≠ []), l.Pairwise (· < ·) →
      l.headD 0 + l.length - 1 ≤ l.getLast h := by
  intro l
  induction l with
  | nil => intro h; exact absurd rfl h
  | cons a t ih =>
    intro h hp
    cases t with
    | nil => simp
    | cons b t2 =>
      have hat := List.pairwise_cons.1 hp
      have hne : b :: t2 ≠ [] := List.cons_ne_nil _ _
      have hrec := ih hne hat.2
      have hab : a < b := hat.1 b (List.mem_cons_self _ _)
      rw [List.getLast_cons hne]
      simp only [List.headD_cons, List.length_cons] at hrec ⊢
      omega

theorem strictSorted_run :
    ∀ (l : List Nat) (h : l ≠ []), l.Pairwise (· < ·) →
      l.headD 0 + l.length - 1 = l.getLast h →
      l = (List.range l.length).map (l.headD 0 + ·) := by
  intro l
  induction l with
  | nil => intro h; exact absurd rfl h
  | cons a t ih =>
    intro h hp hlast
    cases t with
    | nil => rfl
    | cons b t2 =>
      have hat := List.pairwise_cons.1 hp
      have hne : b :: t2 ≠ [] := List.cons_ne_nil _ _
      have hab : a < b := hat.1 b (List.mem_cons_self _ _)
      have hge := strictSorted_getLast_ge (b :: t2) hne hat.2
      rw [List.getLast_cons hne] at hlast
      simp only [List.headD_cons, List.length_cons] at hlast hge ⊢
      have hb1 : b = a + 1 := by omega
      have hrec := ih hne hat.2 (by
        simp only [List.headD_cons, List.length_cons]
        omega)
      simp only [List.headD_cons, List.length_cons] at hrec
      rw [List.range_succ_eq_map, List.map_cons, List.map_map, Nat.add_zero]
      congr 1
      rw [hrec]
      apply List.map_congr_left
      intro x _
      simp only [Function.comp_apply]
      omega

theorem filter_lt_run (r0 n c : Nat) :
    ((List.range n).map (r0 + ·)).filter (fun r => decide (r < c)) =
      (List.range (min n (c - r0))).map (r0 + ·) := by
  induction n with
  | zero => rw [Nat.zero_min]; rfl
  | succ n ih =>
    rw [List.range_succ, List.map_append, List.filter_append, ih]
    by_cases h : r0 + n < c
    · have h1 : min n (c - r0) = n := by omega
      have h2 : min (n + 1) (c - r0) = n + 1 := by omega
      rw [h1, h2, List.range_succ, List.map_append]
      congr 1
      simp [List.filter, h]
    · have h2 : min (n + 1) (c - r0) = min n (c - r0) := by omega
      rw [h2]
      have : (List.map (r0 + ·) [n]).filter (fun r => decide (r < c))
          = [] := by
        simp [List.filter, h]
      rw [this, List.append_nil]

theorem countP_run_eq_slice (n : Ndx) (r0 L : Nat)
    (h : r0 + L ≤ n.data.length) :
    ((List.range L).map (r0 + ·)).countP
        (fun i => ModelState.inProgressAt n i) =
      ((n.data.drop r0).take L).countP (·.in_progress) := by
  induction L with
  | zero => rfl
  | succ L ih =>
    obtain ⟨x, hx⟩ : ∃ x, n.data.get? (r0 + L) = some x := by
      rcases hg : n.data.get? (r0 + L) with _ | x
      · rw [List.get?_eq_none] at hg
        omega
      · exact ⟨x, rfl⟩
    rw [List.range_succ, List.map_append, List.countP_append]
    rw [show (n.data.drop r0).take (L + 1) =
        (n.data.drop r0).take L ++ ((n.data.drop r0).get? L).toList by
      rw [List.get?_eq_getElem?]; exact List.take_succ]
    rw [List.countP_append, ih (by omega)]
    congr 1
    rw [List.get?_drop, hx]
    show List.countP _ [r0 + L] = List.countP _ [x]
    rw [List.countP_cons, List.countP_cons]
    simp only [List.countP_nil]
    unfold ModelState.inProgressAt
    rw [hx]

theorem count_in_progress_block (dta : List RowInfo) (r0 L : Nat)
    (h : r0 + L ≤ dta.length) :
    ((dta.take r0 ++ dta.drop (r0 + L)).filter (·.in_progress)).length +
        (((dta.drop r0).take L).filter (·.in_progress)).length =
      (dta.filter (·.in_progress)).length := by
  have hdecomp : dta = dta.take r0 ++ (dta.drop r0).take L ++
      dta.drop (r0 + L) := by
    rw [List.append_assoc]
    rw [show dta.drop (r0 + L) = (dta.drop r0).drop L by rw [List.drop_drop]]
    rw [List.take_append_drop, List.take_append_drop]
  conv_rhs => rw [hdecomp]
  rw [List.filter_append, List.filter_append, List.filter_append]
  simp only [List.length_append]
  omega

theorem removeRows_block (st : ModelState) (r0 L : Nat)
    (hmut : st.row_ndx.is_mutable = true)
    (hinv : st.df.length = st.row_ndx.data.length)
    (hle : r0 + L ≤ st.row_ndx.data.length) :
    st.removeRows r0 L = some (true,
      { df := st.df.take r0 ++ st.df.drop (r0 + L), row_ndx := { data := st.row_ndx.data.take r0 ++ st.row_ndx.data.drop (r0 + L), is_mutable := st.row_ndx.is_mutable, count_virtual := st.row_ndx.count_virtual }, col_ndx := st.col_ndx }) := by
  unfold ModelState.removeRows
  rw [hmut, if_neg (by simp),
    if_pos (show r0 + L ≤ st.df.length by omega)]
  simp only [Option.pure_def, Option.bind_eq_bind, Option.some_bind]
  unfold Ndx.remove
  rw [if_pos hle]
  dsimp only
  simp only [Option.some_bind]
  rw [hmut]

theorem remove_series_index (s : Series Bool) (first count : Nat)
    (t : Series Bool) (h : pandas_obj_remove_rows s first count = some t) :
    seriesIndex t = List.range t.length := by
  unfold pandas_obj_remove_rows at h
  by_cases hg : first + count ≤ s.length
  · rw [if_pos hg] at h
    have ht := Option.some.inj h
    subst ht
    have hfst : ∀ l : List Bool, (l.enum).map (fun x : Nat × Bool => x.1) =
        List.range l.length := fun l => List.enum_map_fst l
    unfold seriesIndex
    rw [hfst, List.enum_length]
  · rw [if_neg hg] at h
    exact Option.noConfusion h

theorem mapCacheM_cover (first count n : Nat) (hbound : first + count ≤ n) :
    ∀ cache : List (Int × Series Bool),
      (∀ c ∈ cache, c.2.length = n ∧ (seriesIndex c.2).Nodup) →
      ∃ cache2, mapCacheM (fun m => pandas_obj_remove_rows m first count)
          cache = some cache2 ∧
        ∀ c ∈ cache2, c.2.length = n - count ∧ (seriesIndex c.2).Nodup := by
  intro cache
  induction cache with
  | nil =>
    intro _
    exact ⟨[], rfl, fun c hc => absurd hc (List.not_mem_nil c)⟩
  | cons p rest ih =>
    intro hc
    obtain ⟨c, m⟩ := p
    obtain ⟨hplen, hpnd⟩ := hc (c, m) (List.mem_cons_self _ _)
    dsimp only at hplen hpnd
    obtain ⟨t, ht, hvals, htlen⟩ := remove_series_spec m first count
      (by omega) hpnd
    have htnd : (seriesIndex t).Nodup := by
      rw [remove_series_index m first count t ht]
      exact List.nodup_range _
    obtain ⟨rest2, hrest2, hrest2p⟩ :=
      ih (fun q hq => hc q (List.mem_cons_of_mem _ hq))
    refine ⟨(c, t) :: rest2, ?_, ?_⟩
    · unfold mapCacheM
      rw [ht, hrest2]
    · intro q hq
      rcases List.mem_cons.mp hq with h1 | h2
      · subst h1
        exact ⟨by rw [htlen, hplen], htnd⟩
      · exact hrest2p q h2

theorem on_rows_removed_cover (pst : ProxyState) (first count n : Nat)
    (hcount : 1 ≤ count) (hbound : first + count ≤ n)
    (halen : pst.accepted.length = n)
    (hand : (seriesIndex pst.accepted).Nodup)
    (haval : ∀ q ∈ pst.accepted, q.2 = true)
    (hcache : ∀ c ∈ pst.filter_cache, c.2.length = n ∧
      (seriesIndex c.2).Nodup) :
    ∃ pst2, on_rows_removed pst first (first + count - 1) = some pst2 ∧
      pst2.accepted.length = n - count ∧
      (seriesIndex pst2.accepted).Nodup ∧
      (∀ q ∈ pst2.accepted, q.2 = true) ∧
      ∀ c ∈ pst2.filter_cache, c.2.length = n - count ∧
        (seriesIndex c.2).Nodup := by
  obtain ⟨cache2, hc2, hc2p⟩ :=
    mapCacheM_cover first count n hbound pst.filter_cache hcache
  obtain ⟨acc2, hacc2, haccvals, haccl⟩ :=
    remove_series_spec pst.accepted first count (by omega) hand
  have haccnd2 : (seriesIndex acc2).Nodup := by
    rw [remove_series_index pst.accepted first count acc2 hacc2]
    exact List.nodup_range _
  refine ⟨{ filter_cache := cache2, accepted := acc2 }, ?_, ?_, haccnd2,
    ?_, hc2p⟩
  · simp only [on_rows_removed]
    rw [show first + count - 1 - first + 1 = count from by omega]
    rw [hc2, hacc2]
  · rw [haccl, halen]
  · intro q hq
    have hv : q.2 ∈ seriesValues acc2 :=
      List.mem_map_of_mem (fun x : Nat × Bool => x.2) hq
    rw [haccvals] at hv
    rcases List.mem_append.mp hv with h1 | h2
    · obtain ⟨p0, hp0, he⟩ :=
        List.mem_map.mp (List.take_subset first _ h1)
      rw [← he]
      exact haval p0 hp0
    · obtain ⟨p0, hp0, he⟩ :=
        List.mem_map.mp (List.drop_subset (first + count) _ h2)
      rw [← he]
      exact haval p0 hp0

theorem proxyVisibleRows_allTrue (pst : ProxyState) (st : ModelState)
    (hval : ∀ q ∈ pst.accepted, q.2 = true) :
    proxyVisibleRows pst st = List.range st.row_ndx.count := by
  unfold proxyVisibleRows
  apply List.filter_eq_self.2
  intro r _
  unfold acceptsRowB
  split
  · exact hval _ (List.get_mem _ _ _)
  · rfl

theorem getD_range (n r : Nat) (h : r < n) :
    (List.range n).getD r 0 = r := by
  unfold List.getD
  rw [List.get?_eq_getElem?, List.getElem?_range h]
  rfl

theorem proxyRemoveRows_id (pst : ProxyState) (st : ModelState)
    (row count : Nat)
    (hvis : proxyVisibleRows pst st = List.range st.row_ndx.count)
    (hcount : 1 ≤ count) (hle : row + count ≤ st.row_ndx.count) :
    proxyRemoveRows pst st row count = sourceRemoveBlock pst st row count := by
  simp only [proxyRemoveRows]
  rw [hvis, List.length_range,
    if_neg (show ¬ count = 0 by omega),
    if_neg (show ¬ st.row_ndx.count < row + count by omega),
    if_pos (Or.inr rfl),
    getD_range st.row_ndx.count row (by omega)]

theorem sourceRemoveBlock_spec (pst : ProxyState) (st : ModelState)
    (s L : Nat)
    (hmut : st.row_ndx.is_mutable = true)
    (hinv : st.df.length = st.row_ndx.data.length)
    (hL : 1 ≤ L) (hle : s + L ≤ st.row_ndx.data.length)
    (halen : pst.accepted.length = st.row_ndx.data.length)
    (hand : (seriesIndex pst.accepted).Nodup)
    (haval : ∀ q ∈ pst.accepted, q.2 = true)
    (hcache : ∀ c ∈ pst.filter_cache, c.2.length =
      st.row_ndx.data.length ∧ (seriesIndex c.2).Nodup) :
    ∃ pst2, sourceRemoveBlock pst st s L = Except.ok (true, pst2,
        { df := st.df.take s ++ st.df.drop (s + L), row_ndx := { data := st.row_ndx.data.take s ++ st.row_ndx.data.drop (s + L), is_mutable := st.row_ndx.is_mutable, count_virtual := st.row_ndx.count_virtual }, col_ndx := st.col_ndx }) ∧
      pst2.accepted.length = st.row_ndx.data.length - L ∧
      (seriesIndex pst2.accepted).Nodup ∧
      (∀ q ∈ pst2.accepted, q.2 = true) ∧
      ∀ c ∈ pst2.filter_cache, c.2.length =
        st.row_ndx.data.length - L ∧ (seriesIndex c.2).Nodup := by
  obtain ⟨pst2, hsig, h1, h2, h3, h4⟩ := on_rows_removed_cover pst s L
    st.row_ndx.data.length hL hle halen hand haval hcache
  refine ⟨pst2, ?_, h1, h2, h3, h4⟩
  unfold sourceRemoveBlock
  rw [removeRows_block st s L hmut hinv hle, hsig]
  rfl

theorem viewRemoveLoop_spec :
    ∀ (rows : List Nat) (pst : ProxyState) (st : ModelState),
      rows.Pairwise (· > ·) →
      (∀ r ∈ rows, r < st.row_ndx.data.length) →
      st.df.length = st.row_ndx.data.length →
      st.row_ndx.is_mutable = true →
      pst.accepted.length = st.row_ndx.data.length →
      (seriesIndex pst.accepted).Nodup →
      (∀ q ∈ pst.accepted, q.2 = true) →
      (∀ c ∈ pst.filter_cache, c.2.length = st.row_ndx.data.length ∧
        (seriesIndex c.2).Nodup) →
      ∃ pst2 st2, viewRemoveLoop pst st rows = Except.ok (pst2, st2) ∧
        st2.row_ndx.data.length = st.row_ndx.data.length - rows.length ∧
        st2.df.length = st.df.length - rows.length ∧
        st2.row_ndx.is_mutable = st.row_ndx.is_mutable ∧
        st2.row_ndx.count_virtual = st.row_ndx.count_virtual ∧
        Ndx.count_in_progress st2.row_ndx +
          rows.countP (fun r => ModelState.inProgressAt st.row_ndx r) =
          Ndx.count_in_progress st.row_ndx := by
  intro rows
  induction rows with
  | nil =>
    intro pst st _ _ _ _ _ _ _ _
    exact ⟨pst, st, rfl, by simp, by simp, rfl, rfl, by simp⟩
  | cons r rest ih =>
    intro pst st hp hbound hinv hmut halen hand haval hcache
    have hpc := List.pairwise_cons.1 hp
    have hr : r < st.row_ndx.data.length := hbound r (List.mem_cons_self _ _)
    have hrc : r < st.row_ndx.count := by
      have hcv : st.row_ndx.count =
          st.row_ndx.data.length + st.row_ndx.count_virtual := rfl
      omega
    have hvis := proxyVisibleRows_allTrue pst st haval
    have hid := proxyRemoveRows_id pst st r 1 hvis (by omega) (by omega)
    obtain ⟨pst2, hblk, hal2, hnd2, hav2, hch2⟩ :=
      sourceRemoveBlock_spec pst st r 1 hmut hinv (by omega) (by omega)
        halen hand haval hcache
    have hstep : viewRemoveLoop pst st (r :: rest) =
        viewRemoveLoop pst2 { df := st.df.take r ++ st.df.drop (r + 1), row_ndx := { data := st.row_ndx.data.take r ++ st.row_ndx.data.drop (r + 1), is_mutable := st.row_ndx.is_mutable, count_virtual := st.row_ndx.count_virtual }, col_ndx := st.col_ndx } rest := by
      show (match proxyRemoveRows pst st r 1 with
        | Except.error x => Except.error x
        | Except.ok q => viewRemoveLoop q.2.1 q.2.2 rest) = _
      rw [hid, hblk]
    obtain ⟨x, hx⟩ : ∃ x, st.row_ndx.data.get? r = some x := by
      rcases hg : st.row_ndx.data.get? r with _ | x
      · rw [List.get?_eq_none] at hg
        omega
      · exact ⟨x, rfl⟩
    have hslice : (st.row_ndx.data.drop r).take 1 = [x] := by
      rw [show (1 : Nat) = 0 + 1 from rfl,
        show (st.row_ndx.data.drop r).take (0 + 1) =
          (st.row_ndx.data.drop r).take 0 ++
            ((st.row_ndx.data.drop r).get? 0).toList by
          rw [List.get?_eq_getElem?]; exact List.take_succ]
      rw [List.get?_drop, Nat.add_zero, hx]
      rfl
    have hblock := count_in_progress_block st.row_ndx.data r 1 (by omega)
    rw [hslice] at hblock
    have htakelen : (st.row_ndx.data.take r).length = r := by
      rw [List.length_take]
      omega
    have hlenX : (st.row_ndx.data.take r ++
        st.row_ndx.data.drop (r + 1)).length =
        st.row_ndx.data.length - 1 := by
      rw [List.length_append, List.length_take, List.length_drop]
      omega
    have hdfX : (st.df.take r ++ st.df.drop (r + 1)).length =
        st.df.length - 1 := by
      rw [List.length_append, List.length_take, List.length_drop]
      omega
    obtain ⟨pst3, st3, hloop, hl3, hd3, hm3, hv3, hip3⟩ :=
      ih pst2 { df := st.df.take r ++ st.df.drop (r + 1), row_ndx := { data := st.row_ndx.data.take r ++ st.row_ndx.data.drop (r + 1), is_mutable := st.row_ndx.is_mutable, count_virtual := st.row_ndx.count_virtual }, col_ndx := st.col_ndx }
        hpc.2
        (by
          intro y hy
          have hyr : y < r := hpc.1 y hy
          show y < (st.row_ndx.data.take r ++
            st.row_ndx.data.drop (r + 1)).length
          rw [hlenX]
          omega)
        (by
          show (st.df.take r ++ st.df.drop (r + 1)).length =
            (st.row_ndx.data.take r ++
              st.row_ndx.data.drop (r + 1)).length
          rw [hlenX, hdfX, hinv])
        (by show st.row_ndx.is_mutable = true; exact hmut)
        (by
          show pst2.accepted.length = (st.row_ndx.data.take r ++
            st.row_ndx.data.drop (r + 1)).length
          rw [hlenX]
          exact hal2)
        hnd2
        hav2
        (by
          intro c hc
          refine ⟨?_, (hch2 c hc).2⟩
          show c.2.length = (st.row_ndx.data.take r ++
            st.row_ndx.data.drop (r + 1)).length
          rw [hlenX]
          exact (hch2 c hc).1)
    dsimp only at hl3 hd3 hm3 hv3 hip3
    rw [hlenX] at hl3
    rw [hdfX] at hd3
    have htrans : rest.countP (fun y => ModelState.inProgressAt { data := st.row_ndx.data.take r ++ st.row_ndx.data.drop (r + 1), is_mutable := st.row_ndx.is_mutable, count_virtual := st.row_ndx.count_virtual } y) =
        rest.countP (fun y => ModelState.inProgressAt st.row_ndx y) := by
      rw [List.countP_eq_length_filter, List.countP_eq_length_filter]
      congr 1
      apply List.filter_congr
      intro y hy
      have hyr : y < r := hpc.1 y hy
      unfold ModelState.inProgressAt
      dsimp only
      rw [List.get?_append (by rw [htakelen]; exact hyr),
        List.get?_take hyr]
    refine ⟨pst3, st3, ?_, ?_, ?_, ?_, ?_, ?_⟩
    · rw [hstep]
      exact hloop
    · rw [List.length_cons]
      omega
    · rw [List.length_cons]
      omega
    · exact hm3
    · exact hv3
    · have hpred : ModelState.inProgressAt st.row_ndx r = x.in_progress := by
        unfold ModelState.inProgressAt
        rw [hx]
      have hcnt : List.countP
            (fun q => ModelState.inProgressAt st.row_ndx q) (r :: rest)
          = List.countP (fun q => ModelState.inProgressAt st.row_ndx q)
              rest + if x.in_progress = true then 1 else 0 := by
        rw [List.countP_cons]
        congr 1
        show (if ModelState.inProgressAt st.row_ndx r = true
          then 1 else 0) = _
        rw [hpred]
      have hfx : ((List.filter (fun y => y.in_progress) [x]).length : Nat)
          = if x.in_progress = true then 1 else 0 := by
        cases hx2 : x.in_progress <;>
          simp [List.filter_cons, List.filter_nil, hx2]
      rw [hfx] at hblock
      rw [htrans] at hip3
      unfold Ndx.count_in_progress at hip3 ⊢
      dsimp only at hip3 ⊢
      omega

theorem rowsFromSelection_strictSorted (selected : List Nat) :
    (rowsFromSelection selected).Pairwise (· < ·) := by
  unfold rowsFromSelection
  have hnd : ((selected.dedup).mergeSort (fun a b => a ≤ b)).Nodup :=
    (List.mergeSort_perm selected.dedup (fun a b => a ≤ b)).symm.nodup
      (List.nodup_dedup selected)
  have h := List.sorted_mergeSort
    (show ∀ a b c : Nat, (fun a b : Nat => decide (a ≤ b)) a b = true →
        (fun a b : Nat => decide (a ≤ b)) b c = true →
        (fun a b : Nat => decide (a ≤ b)) a c = true by
      intro a b c h1 h2
      simp only [decide_eq_true_eq] at h1 h2 ⊢
      omega)
    (show ∀ a b : Nat, ((fun a b : Nat => decide (a ≤ b)) a b ||
        (fun a b : Nat => decide (a ≤ b)) b a) = true by
      intro a b
      simp only [Bool.or_eq_true, decide_eq_true_eq]
      omega)
    selected.dedup
  have hsort : ((selected.dedup).mergeSort (fun a b => a ≤ b)).Pairwise
      (fun a b => a ≤ b) := by
    refine List.Pairwise.imp ?_ h
    intro a b hab
    exact of_decide_eq_true hab
  exact hsort.imp₂ (fun a b h1 h2 => lt_of_le_of_ne h1 h2) hnd

/-- Claim C8, counterexample.  A reachable filtered state refutes the
claimed invariant.  Three-row table, source row 0 in progress (a pending
disabled-column count, as left by a row insertion); the proxy filters
column 0 with a full-index mask hiding exactly the in-progress row (the
shape produced by re-filtering the last-filtered column, whose mask
covers the full index).  The visible proxy rows `0, 1` are the committed
source rows `1, 2`.  Selecting them, `remove_rows` reads
`in_progress_mask.iloc[[0, 1]]` — proxy numbers against source
positions — and counts the hidden in-progress source row 0 among the
rows to be deleted, so its guard sees `count_committed - num_to_delete
= 2 - 1 > 0` and lets the call through; the proxy then maps the block to
source rows `1..2` and removes them — every committed row.  The call
falls through (`None`) leaving zero committed rows. -/
theorem c8_counterexample :
    1 ≤ Ndx.count_committed (ModelState.row_ndx { df := [[some 1], [some 2], [some 3]], row_ndx := { data := [{ in_progress := true, disabled := false, non_nullable := false, non_nullable_in_progress_count := 0, disabled_in_progress_count := 1 }, {}, {}], is_mutable := true, count_virtual := 0 }, col_ndx := { data := [{}], is_mutable := false, count_virtual := 0 } }) ∧
      (view_remove_rows { filter_cache := [(-1, [(0, true), (1, true), (2, true)]), (0, [(0, false), (1, true), (2, true)])], accepted := [(0, false), (1, true), (2, true)] } { df := [[some 1], [some 2], [some 3]], row_ndx := { data := [{ in_progress := true, disabled := false, non_nullable := false, non_nullable_in_progress_count := 0, disabled_in_progress_count := 1 }, {}, {}], is_mutable := true, count_virtual := 0 }, col_ndx := { data := [{}], is_mutable := false, count_virtual := 0 } } [0, 1]).1 = RemoveRet.retNone ∧
      Ndx.count_committed (view_remove_rows { filter_cache := [(-1, [(0, true), (1, true), (2, true)]), (0, [(0, false), (1, true), (2, true)])], accepted := [(0, false), (1, true), (2, true)] } { df := [[some 1], [some 2], [some 3]], row_ndx := { data := [{ in_progress := true, disabled := false, non_nullable := false, non_nullable_in_progress_count := 0, disabled_in_progress_count := 1 }, {}, {}], is_mutable := true, count_virtual := 0 }, col_ndx := { data := [{}], is_mutable := false, count_virtual := 0 } } [0, 1]).2.2.row_ndx = 0 := by
  have hsel : rowsFromSelection [0, 1] = [0, 1] := by
    unfold rowsFromSelection
    rw [show ([0, 1] : List Nat).dedup = [0, 1] from by decide]
    exact List.mergeSort_eq_self (by decide)
  rcases hres : view_remove_rows { filter_cache := [(-1, [(0, true), (1, true), (2, true)]), (0, [(0, false), (1, true), (2, true)])], accepted := [(0, false), (1, true), (2, true)] } { df := [[some 1], [some 2], [some 3]], row_ndx := { data := [{ in_progress := true, disabled := false, non_nullable := false, non_nullable_in_progress_count := 0, disabled_in_progress_count := 1 }, {}, {}], is_mutable := true, count_virtual := 0 }, col_ndx := { data := [{}], is_mutable := false, count_virtual := 0 } } [0, 1] with ⟨ret, pst2, st2⟩
  simp only [view_remove_rows] at hres
  rw [if_neg (by decide)] at hres
  split at hres
  · rename_i heq
    rw [hsel] at heq
    exact List.noConfusion heq
  · rename_i r0 rest heq
    rw [hsel] at heq
    obtain ⟨h0, h1⟩ := List.cons.inj heq
    subst h0
    subst h1
    have h1r := congrArg (fun t : RemoveRet × ProxyState × ModelState => t.1)
      hres
    have h2r := congrArg
      (fun t : RemoveRet × ProxyState × ModelState =>
        Ndx.count_committed t.2.2.row_ndx) hres
    dsimp only at h1r h2r
    refine ⟨by decide, ?_, ?_⟩
    · show ret = RemoveRet.retNone
      rw [← h1r]
      decide
    · show Ndx.count_committed st2.row_ndx = 0
      rw [← h2r]
      decide

/-- Claim C8, amended: with no filter active — the clear-filter proxy
state, whose `accepted` series is all-true with duplicate-free labels
and the full source length and whose cached masks all cover the
source — `remove_rows` never deletes down to zero committed rows: when
the call raises or returns `False` the model state comes back untouched,
and when it falls through after actually removing rows (a plain `return`
on a mutable row index) the guard `count_committed - num_to_delete <= 0`
has already ensured that at least one committed row remains; hence a
table holding at least one committed row still holds one.  With an
active filter the invariant fails (`c8_counterexample`): the in-progress
discount is read at proxy row numbers against source positions while the
removal maps through the proxy.  The first hypothesis is the model
invariant that the bookkeeping frame is as long as the data frame. -/
theorem c8_amended (pst : ProxyState) (st : ModelState)
    (selected : List Nat)
    (hinv : st.df.length = st.row_ndx.data.length)
    (halen : pst.accepted.length = st.row_ndx.data.length)
    (hand : (seriesIndex pst.accepted).Nodup)
    (haval : ∀ q ∈ pst.accepted, q.2 = true)
    (hcache : ∀ c ∈ pst.filter_cache, c.2.length =
      st.row_ndx.data.length ∧ (seriesIndex c.2).Nodup) :
    ((view_remove_rows pst st selected).1 ≠ RemoveRet.retNone →
        (view_remove_rows pst st selected).2.2 = st) ∧
      ((view_remove_rows pst st selected).1 = RemoveRet.retNone →
        st.row_ndx.is_mutable = false ∨
          1 ≤ (view_remove_rows pst st
            selected).2.2.row_ndx.count_committed) ∧
      (1 ≤ st.row_ndx.count_committed →
        1 ≤ (view_remove_rows pst st
          selected).2.2.row_ndx.count_committed) := by
  rcases hres : view_remove_rows pst st selected with ⟨ret, pst2, st2⟩
  simp only [view_remove_rows] at hres
  by_cases hmut : st.row_ndx.is_mutable = false
  · rw [if_pos hmut] at hres
    cases hres
    exact ⟨fun h => absurd rfl h, fun _ => Or.inl hmut, fun h => h⟩
  · rw [if_neg hmut] at hres
    have hmut' : st.row_ndx.is_mutable = true := by
      cases hm : st.row_ndx.is_mutable
      · exact absurd hm hmut
      · rfl
    split at hres
    · cases hres
      exact ⟨fun _ => rfl, fun h => RemoveRet.noConfusion h, fun h => h⟩
    · rename_i r0 rest heq
      have hpAll : (r0 :: rest).Pairwise (· < ·) :=
        heq ▸ rowsFromSelection_strictSorted selected
      set rows : List Nat :=
        (r0 :: rest).filter (fun r => decide (r < st.row_ndx.count))
        with hrowsdef
      have hpRows : rows.Pairwise (· < ·) := List.Pairwise.filter _ hpAll
      split at hres
      · cases hres
        exact ⟨fun _ => rfl, fun h => RemoveRet.noConfusion h, fun h => h⟩
      · rename_i hemp
        have hne : rows ≠ [] := by
          intro h0
          rw [h0] at hemp
          exact hemp rfl
        split at hres
        · cases hres
          exact ⟨fun _ => rfl, fun h => RemoveRet.noConfusion h,
            fun h => h⟩
        · rename_i hall
          rw [not_not] at hall
          have hbound : ∀ r ∈ rows, r < st.row_ndx.data.length := by
            intro r hr
            exact of_decide_eq_true (List.all_eq_true.mp hall r hr)
          have hlenle : rows.length ≤ st.row_ndx.data.length := by
            rcases strictSorted_length_bound rows 0 st.row_ndx.data.length
                hpRows (fun x _ => Nat.zero_le x) hbound with h0 | h1
            · exact absurd h0 hne
            · omega
          split at hres
          · cases hres
            exact ⟨fun _ => rfl, fun h => RemoveRet.noConfusion h,
              fun h => h⟩
          · rename_i hC
            have hvis := proxyVisibleRows_allTrue pst st haval
            split at hres
            · rename_i hcons
              have hlast : (r0 :: rest).headD 0 + (r0 :: rest).length - 1 =
                  (r0 :: rest).getLast (List.cons_ne_nil r0 rest) :=
                of_decide_eq_true hcons
              have hrun := strictSorted_run (r0 :: rest)
                (List.cons_ne_nil r0 rest) hpAll hlast
              have hrowsrun : rows =
                  (List.range (min (r0 :: rest).length
                    (st.row_ndx.count - r0))).map (r0 + ·) := by
                rw [hrowsdef]
                conv_lhs => rw [hrun]
                exact filter_lt_run r0 (r0 :: rest).length st.row_ndx.count
              have hlenrows : rows.length =
                  min (r0 :: rest).length (st.row_ndx.count - r0) := by
                rw [hrowsrun, List.length_map, List.length_range]
              have hn1 : 1 ≤ min (r0 :: rest).length
                  (st.row_ndx.count - r0) := by
                rcases Nat.eq_zero_or_pos (min (r0 :: rest).length
                    (st.row_ndx.count - r0)) with h0 | h1
                · exfalso
                  apply hne
                  rw [hrowsrun, h0]
                  rfl
                · exact h1
              have hhead : rows.headD 0 = r0 := by
                rw [hrowsrun]
                rcases hmin : min (r0 :: rest).length
                    (st.row_ndx.count - r0) with _ | n
                · omega
                · rw [List.range_succ_eq_map]
                  rfl
              have hbnd : r0 + min (r0 :: rest).length
                  (st.row_ndx.count - r0) ≤ st.row_ndx.data.length := by
                have hmem : r0 + (min (r0 :: rest).length
                    (st.row_ndx.count - r0) - 1) ∈ rows := by
                  rw [hrowsrun]
                  exact List.mem_map.mpr ⟨_,
                    List.mem_range.mpr (by omega), rfl⟩
                have := hbound _ hmem
                omega
              have hbnd2 : r0 + min (r0 :: rest).length
                  (st.row_ndx.count - r0) ≤ st.row_ndx.count := by
                have hcv : st.row_ndx.count =
                    st.row_ndx.data.length + st.row_ndx.count_virtual := rfl
                omega
              have hid := proxyRemoveRows_id pst st r0
                (min (r0 :: rest).length (st.row_ndx.count - r0))
                hvis hn1 hbnd2
              obtain ⟨pst2x, hblk, _, _, _, _⟩ :=
                sourceRemoveBlock_spec pst st r0
                  (min (r0 :: rest).length (st.row_ndx.count - r0))
                  hmut' hinv hn1 hbnd halen hand haval hcache
              rw [hhead, hlenrows, hid, hblk] at hres
              simp only [] at hres
              cases hres
              have hcom : 1 ≤ Ndx.count_committed
                  { data := st.row_ndx.data.take r0 ++ st.row_ndx.data.drop
                      (r0 + min (r0 :: rest).length (st.row_ndx.count - r0)),
                    is_mutable := st.row_ndx.is_mutable,
                    count_virtual := st.row_ndx.count_virtual } := by
                have hcnt : rows.countP
                    (fun r => ModelState.inProgressAt st.row_ndx r) =
                    (((st.row_ndx.data.drop r0).take (min (r0 :: rest).length
                      (st.row_ndx.count - r0))).filter
                        (·.in_progress)).length := by
                  rw [hrowsrun, countP_run_eq_slice st.row_ndx _ _ hbnd,
                    List.countP_eq_length_filter]
                have hblk := count_in_progress_block st.row_ndx.data r0
                  (min (r0 :: rest).length (st.row_ndx.count - r0)) hbnd
                unfold Ndx.count_committed Ndx.count_in_progress at hC ⊢
                dsimp only
                rw [List.length_append, List.length_take, List.length_drop]
                omega
              exact ⟨fun h => absurd rfl h, fun _ => Or.inr hcom,
                fun _ => hcom⟩
            · obtain ⟨pst3, st3, hloop, hl3, hd3, hm3, hv3, hip3⟩ :=
                viewRemoveLoop_spec rows.reverse pst st
                  (by
                    rw [List.pairwise_reverse]
                    exact hpRows)
                  (fun y hy => hbound y (List.mem_reverse.mp hy))
                  hinv hmut' halen hand haval hcache
              rw [hloop] at hres
              simp only [] at hres
              cases hres
              have hcpr : rows.reverse.countP
                  (fun y => ModelState.inProgressAt st.row_ndx y) =
                  rows.countP
                    (fun y => ModelState.inProgressAt st.row_ndx y) := by
                rw [List.countP_eq_length_filter,
                  List.countP_eq_length_filter, List.filter_reverse,
                  List.length_reverse]
              have hcom : 1 ≤ Ndx.count_committed st2.row_ndx := by
                rw [List.length_reverse] at hl3
                rw [hcpr] at hip3
                unfold Ndx.count_committed at hC ⊢
                unfold Ndx.count_in_progress at hC hip3 ⊢
                rw [hv3]
                omega
              exact ⟨fun h => absurd rfl h, fun _ => Or.inr hcom,
                fun _ => hcom⟩

/-- Claim C8, witness for the amended theorem: a one-row mutable table in
the clear-filter proxy state with the single row selected. -/
theorem c8_amended_witness :
    ((view_remove_rows { filter_cache := [(-1, [(0, true)])], accepted := [(0, true)] } { df := [[some 1]], row_ndx := { data := [{}], is_mutable := true, count_virtual := 0 }, col_ndx := { data := [{}], is_mutable := false, count_virtual := 0 } } [0]).1 ≠ RemoveRet.retNone →
        (view_remove_rows { filter_cache := [(-1, [(0, true)])], accepted := [(0, true)] } { df := [[some 1]], row_ndx := { data := [{}], is_mutable := true, count_virtual := 0 }, col_ndx := { data := [{}], is_mutable := false, count_virtual := 0 } } [0]).2.2 = { df := [[some 1]], row_ndx := { data := [{}], is_mutable := true, count_virtual := 0 }, col_ndx := { data := [{}], is_mutable := false, count_virtual := 0 } }) ∧
      ((view_remove_rows { filter_cache := [(-1, [(0, true)])], accepted := [(0, true)] } { df := [[some 1]], row_ndx := { data := [{}], is_mutable := true, count_virtual := 0 }, col_ndx := { data := [{}], is_mutable := false, count_virtual := 0 } } [0]).1 = RemoveRet.retNone →
        (ModelState.row_ndx { df := [[some 1]], row_ndx := { data := [{}], is_mutable := true, count_virtual := 0 }, col_ndx := { data := [{}], is_mutable := false, count_virtual := 0 } }).is_mutable = false ∨
          1 ≤ (view_remove_rows { filter_cache := [(-1, [(0, true)])], accepted := [(0, true)] } { df := [[some 1]], row_ndx := { data := [{}], is_mutable := true, count_virtual := 0 }, col_ndx := { data := [{}], is_mutable := false, count_virtual := 0 } } [0]).2.2.row_ndx.count_committed) ∧
      (1 ≤ (ModelState.row_ndx { df := [[some 1]], row_ndx := { data := [{}], is_mutable := true, count_virtual := 0 }, col_ndx := { data := [{}], is_mutable := false, count_virtual := 0 } }).count_committed →
        1 ≤ (view_remove_rows { filter_cache := [(-1, [(0, true)])], accepted := [(0, true)] } { df := [[some 1]], row_ndx := { data := [{}], is_mutable := true, count_virtual := 0 }, col_ndx := { data := [{}], is_mutable := false, count_virtual := 0 } } [0]).2.2.row_ndx.count_committed) :=
  c8_amended { filter_cache := [(-1, [(0, true)])], accepted := [(0, true)] } { df := [[some 1]], row_ndx := { data := [{}], is_mutable := true, count_virtual := 0 }, col_ndx := { data := [{}], is_mutable := false, count_virtual := 0 } } [0] rfl rfl
    (by decide) (by decide) (by decide)

/-- Claim C3, witness. -/
theorem c3_populate_refill_witness :
    (populate_list [(0, "a")]).display_values = [(0, "a")] ∧
      (populate_list [(0, "a")]).showing_all = true ∧
      (populate_list [(0, "a")]).gen_rest = [] :=
  (c3_populate_refill [(0, "a")]).1 (by decide)

/-- Claim C7, witness for the amended theorem. -/
theorem c7_amended_witness :
    maskAccepts (lastFilterMask
        (string_filter (initProxy 1) 0 [(0, "xy")] "x").filter_cache) 0
      = true ↔ containsCI "x" "xy" :=
  ((c7_amended (initProxy 1) 0 [(0, "xy")] "x").2 (by decide) (by decide)
    0 "xy" (by rfl)).2 (by decide)

end QSpreadsheet
